import Mathlib

/-! # sensu-go: rotating log writer and global identifiers

A shallow embedding of

* `graphql/globalid/components.go` (`Parse`), and
* `util/logging/rotate_logger.go` (`fileReplacer`, `RotateFileWriter`, `reap`),

followed by the properties established about them.

Conventions of the embedding.

* A Go call either returns or panics; `Go α` records which.
* A Go `error` is an `Option String`: `none` is `nil`.
* A Go pointer that may be `nil` is an `Option`.
* The operating system is an explicit argument: the file system is a list of
  directory entries, and an `Env` says which system calls fail.
-/

/-! ## Go run-time conventions -/

/-- Result of running a Go function body: it returns a value or it panics. -/
inductive Go (α : Type) where
  | ret (a : α)
  | panic (msg : String)
deriving DecidableEq, Repr

/-- A Go `error` value; `none` is `nil`. -/
abbrev Error := Option String

/-- Sequencing of Go computations: a panic aborts what follows. -/
def Go.bind {α β : Type} (x : Go α) (f : α → Go β) : Go β :=
  match x with
  | .ret a => f a
  | .panic m => .panic m

/-- Go indexing `s[i]`: panics when `i` is out of range. -/
def elemAt {α : Type} (s : List α) (i : Int) : Go α :=
  if i < 0 then .panic "index out of range"
  else match s.get? i.toNat with
    | some a => .ret a
    | none => .panic "index out of range"

/-- Go slicing `s[lo:hi]`: panics unless `0 ≤ lo ≤ hi ≤ len(s)`. -/
def subslice {α : Type} (s : List α) (lo hi : Int) : Go (List α) :=
  if 0 ≤ lo ∧ lo ≤ hi ∧ hi ≤ (s.length : Int) then
    .ret ((s.take hi.toNat).drop lo.toNat)
  else .panic "slice bounds out of range"

/-- Go `len(s)` as a signed integer. -/
def len {α : Type} (s : List α) : Int := (s.length : Int)

/-! ## `strings.Split` -/

/-- Splits a character sequence at every occurrence of `sep`; the empty
sequence yields one empty piece, as `strings.Split` does. -/
def splitChars (sep : Char) : List Char → List (List Char)
  | [] => [[]]
  | c :: cs =>
    if c = sep then [] :: splitChars sep cs
    else
      match splitChars sep cs with
      | [] => [[c]]
      | w :: ws => (c :: w) :: ws

/-- Go `strings.Split(s, sep)` for a one-character separator. -/
def Split (s : String) (sep : Char) : List String :=
  (splitChars sep s.data).map String.mk

/-! ## `globalid.Parse` -/

namespace globalid

/-- The standard components of a global identifier. -/
structure StandardComponents where
  resource : String := ""
  organization : String := ""
  environment : String := ""
  resourceType : String := ""
  uniqueComponents : List String := []
deriving DecidableEq, Repr

/-- Go `Parse(gid)`: decodes a global ID string into its components. The
result pairs the components with the returned `error`. -/
def Parse (gid : String) : Go (StandardComponents × Error) :=
  let id : StandardComponents := {}
  let pathComponents := Split gid ':'
  -- Should be at least srn:resource:name
  if len pathComponents < 3 then
    .ret (id, some "given global ID does not appear valid")
  else
    -- id.resource = pathComponents[1]; pathComponents = pathComponents[2:]
    (elemAt pathComponents 1).bind fun resource =>
    let id := { id with resource := resource }
    (subslice pathComponents 2 (len pathComponents)).bind fun pathComponents =>
    -- nameComponents := pathComponents[len(pathComponents)-2:]
    (subslice pathComponents (len pathComponents - 2) (len pathComponents)).bind
      fun nameComponents =>
    -- pathComponents = pathComponents[0 : len(pathComponents)-2]
    (subslice pathComponents 0 (len pathComponents - 2)).bind fun pathComponents =>
    -- if len(pathComponents) > 0 { organization = [0]; pathComponents = [1:] }
    (if len pathComponents > 0 then
      (elemAt pathComponents 0).bind fun org =>
      (subslice pathComponents 1 (len pathComponents)).bind fun rest =>
      Go.ret ({ id with organization := org }, rest)
    else Go.ret (id, pathComponents)).bind fun (id, pathComponents) =>
    -- if len(pathComponents) > 0 { environment = [0] }
    (if len pathComponents > 0 then
      (elemAt pathComponents 0).bind fun env =>
      Go.ret { id with environment := env }
    else Go.ret id).bind fun id =>
    -- if len(nameComponents) > 1 { resourceType = [0]; nameComponents = [1:] }
    (if len nameComponents > 1 then
      (elemAt nameComponents 0).bind fun ty =>
      (subslice nameComponents 1 (len nameComponents)).bind fun rest =>
      Go.ret ({ id with resourceType := ty }, rest)
    else Go.ret (id, nameComponents)).bind fun (id, nameComponents) =>
    Go.ret ({ id with uniqueComponents := nameComponents }, none)

end globalid

/-! ## Library functions used by the log writer -/

namespace logging

/-- Lexical (byte-wise) order on character sequences, as Go compares strings:
the first differing position decides, and a proper prefix comes first. -/
def lexLe : List Char → List Char → Bool
  | [], _ => true
  | _ :: _, [] => false
  | a :: as, b :: bs =>
    if a.toNat < b.toNat then true
    else if b.toNat < a.toNat then false
    else lexLe as bs

/-- Go `a <= b` on strings. -/
def strLe (a b : String) : Prop := lexLe a.data b.data = true

instance strLe.decidable : DecidableRel strLe :=
  fun a b => inferInstanceAs (Decidable (lexLe a.data b.data = true))

/-- Go `sort.Strings`: the ascending rearrangement of the names. -/
def sortStrings (l : List String) : List String := l.insertionSort strLe

/-- Removes the literal prefix `p` from `s`, if `s` starts with it. -/
def stripPrefix : List Char → List Char → Option (List Char)
  | [], s => some s
  | _ :: _, [] => none
  | p :: ps, c :: cs => if p = c then stripPrefix ps cs else none

/-- Go `reapRegexp.FindStringSubmatch(file)` for the pattern
`^<QuoteMeta(path)>\.(\d+)\.zip$`: the empty list when `file` does not match,
and `[file, digits]` when it does. After the literal prefix the longest run of
ASCII digits must be non-empty and be followed by exactly `.zip`. -/
def FindStringSubmatch (path file : String) : List String :=
  match stripPrefix (path.data ++ ['.']) file.data with
  | none => []
  | some rest =>
    let digits := rest.takeWhile Char.isDigit
    if digits ≠ [] ∧ rest.dropWhile Char.isDigit = ['.', 'z', 'i', 'p'] then
      [file, String.mk digits]
    else []

/-- Go `reapRegexp.MatchString(file)`. -/
def MatchString (path file : String) : Bool :=
  !(FindStringSubmatch path file).isEmpty

/-- How an operand is handed to `fmt.Sscanf`: through a pointer, or as a plain
`int64` value. -/
inductive ScanArg where
  | pointer
  | value (v : Int)
deriving DecidableEq, Repr

/-- Value of a run of decimal digits. -/
def decimalValue (ds : List Char) : Nat :=
  ds.foldl (fun acc c => 10 * acc + (c.toNat - '0'.toNat)) 0

/-- Go `fmt.Sscanf(input, "%d", arg)` on an input made of digits. Only a
pointer operand can receive the scanned number; for any other operand the scan
fails with "type not a pointer" and nothing is stored. The result is the
number stored through the pointer, or the error. -/
def Sscanf (input : String) (arg : ScanArg) : Except String Int :=
  match arg with
  | .value _ => .error "type not a pointer: int64"
  | .pointer =>
    if input.data ≠ [] ∧ input.data.all Char.isDigit then
      if decimalValue input.data < 2 ^ 63 then .ok (decimalValue input.data)
      else .error "integer overflow"
    else .error "expected integer"

/-! ## Segments and the writer -/

/-- An `*os.File`: the name it was opened under, and whether `Close` has
been called on it. -/
structure File where
  name : String
  closed : Bool := false
deriving DecidableEq, Repr

/-- One segment: the open file and its byte counter. The `int64` fields are
unbounded integers: the counter moves by payload lengths only, far below
`2 ^ 63`. `once` records whether `once.Do` has already run. The `container`
field of the source is the shared reference itself, kept in
`RotateFileWriter.container`. -/
structure fileReplacer where
  count : Int := 0
  max : Int
  once : Bool := false
  file : Option File
  sync : Bool
deriving DecidableEq, Repr

/-- The writer. `container` is the content of the `atomic.Value`: the current
segment, which the constructor stores before it returns the writer. -/
structure RotateFileWriter where
  retentionFiles : Int
  closed : Int := 0
  /-- A `time.Duration`: nanoseconds. -/
  retentionDuration : Int
  container : fileReplacer
  path : String
deriving DecidableEq, Repr

/-! ## The reaper -/

/-- What the operating system answers during one reap pass. -/
structure ReapEnv where
  /-- Error of `os.Open(base)`. -/
  openDir : Error
  /-- Result of `f.Readdirnames(0)`. -/
  readdir : Except String (List String)
  /-- Reading of `time.Now()`, in nanoseconds since the epoch. -/
  now : Int
  /-- Error of `os.Remove(file)`. -/
  remove : String → Error

/-- Outcome of a reap pass: the names that were removed, in order, and the
returned error. -/
structure ReapResult where
  removed : List String
  err : Error
deriving DecidableEq, Repr

/-- Calls `os.Remove` on each name in turn and stops at the first failure. -/
def removeAll (remove : String → Error) : List String → ReapResult
  | [] => { removed := [], err := none }
  | file :: rest =>
    match remove file with
    | some e => { removed := [], err := some e }
    | none =>
      let r := removeAll remove rest
      { removed := file :: r.removed, err := r.err }

/-- The loop of the age filter over `filesToReap`. It returns the names marked
in `tooOld`, the names removed, and the error that ended the loop early. -/
def ageLoop (r : RotateFileWriter) (env : ReapEnv) :
    List String → List String × ReapResult
  | [] => ([], { removed := [], err := none })
  | file :: rest =>
    let submatches := FindStringSubmatch r.path file
    if len submatches < 2 then ageLoop r env rest
    else
      -- var timestamp int64
      let timestamp : Int := 0
      match Sscanf (submatches.getD 1 "") (ScanArg.value timestamp) with
      | .error _ => ageLoop r env rest
      | .ok _ =>
        -- archiveTime := time.Unix(timestamp, 0)
        let archiveTime := timestamp * 1000000000
        if archiveTime + r.retentionDuration < env.now then
          match env.remove file with
          | some e => ([file], { removed := [], err := some e })
          | none =>
            let (old, res) := ageLoop r env rest
            (file :: old, { removed := file :: res.removed, err := res.err })
        else ageLoop r env rest

/-- The candidates of a reap pass: the names of the listing that match the
archive pattern, in listing order (`filesToReap`). -/
def filesToReap (r : RotateFileWriter) (files : List String) : List String :=
  files.filter (MatchString r.path)

/-- The age filter of a reap pass: the names marked in `tooOld`, and what it
removed. -/
def ageFilter (r : RotateFileWriter) (env : ReapEnv) (files : List String) :
    List String × ReapResult :=
  if r.retentionDuration > 0 then ageLoop r env (filesToReap r files)
  else ([], { removed := [], err := none })

/-- The candidates that survive the age filter (`notTooOld`). -/
def notTooOld (r : RotateFileWriter) (env : ReapEnv) (files : List String) : List String :=
  (filesToReap r files).filter (fun file => !(ageFilter r env files).1.contains file)

/-- Go `(*RotateFileWriter).reap`. -/
def reap (r : RotateFileWriter) (env : ReapEnv) : ReapResult :=
  match env.openDir with
  | some e => { removed := [], err := some e }
  | none =>
  match env.readdir with
  | .error e => { removed := [], err := some e }
  | .ok files =>
    let aged := (ageFilter r env files).2
    match aged.err with
    | some e => { removed := aged.removed, err := some e }
    | none =>
      let survivors := notTooOld r env files
      if r.retentionFiles > 0 ∧ len survivors > r.retentionFiles then
        -- sort.Strings(notTooOld); toRemove := notTooOld[r.retentionFiles:]
        let toRemove := (sortStrings survivors).drop r.retentionFiles.toNat
        let counted := removeAll env.remove toRemove
        { removed := aged.removed ++ counted.removed, err := counted.err }
      else { removed := aged.removed, err := none }

/-! ## The file system -/

/-- Directory entries: name and size in bytes. -/
abbrev FS := List (String × Nat)

namespace FS

/-- The directory listing. -/
def names (fs : FS) : List String := fs.map Prod.fst

/-- Go `os.Remove(name)`. -/
def remove (fs : FS) (name : String) : FS := fs.filter (fun e => e.1 ≠ name)

/-- Go `os.Rename(old, new)`: an existing `new` is replaced. -/
def rename (fs : FS) (old new : String) : FS :=
  if old = new then fs
  else (fs.remove new).map (fun e => if e.1 = old then (new, e.2) else e)

/-- Effect of opening `name` with `O_CREATE` and no truncation. -/
def create (fs : FS) (name : String) : FS :=
  if name ∈ fs.names then fs else (name, 0) :: fs

/-- Go `os.Create(name)` followed by writing `size` bytes. -/
def truncate (fs : FS) (name : String) (size : Nat) : FS :=
  (name, size) :: fs.remove name

/-- Appends `n` bytes to `name`. -/
def append (fs : FS) (name : String) (n : Nat) : FS :=
  fs.map (fun e => if e.1 = name then (e.1, e.2 + n) else e)

/-- Size of `name`, if it exists. -/
def size (fs : FS) (name : String) : Option Nat :=
  (fs.find? (fun e => e.1 = name)).map Prod.snd

end FS

/-! ## The environment of the write path -/

/-- The step of `archive` that fails. -/
inductive ArchiveFailure where
  | atOpen
  | atCreate
  | atCompress
  | atRemove
deriving DecidableEq, Repr

/-- What the operating system answers to the `k`-th call of `Rotate`
(`k = 0, 1, ...`). -/
structure Env where
  /-- Reading of `time.Now().UnixNano()`. -/
  now : Nat → Int
  /-- Error of closing an open file. -/
  close : Nat → Error
  /-- Error of `rename(currentName, archiveName)`. -/
  rename : Nat → Error
  /-- Error of `os.OpenFile(currentName, ...)`. -/
  openFile : Nat → Error
  /-- Failing step of `archive`, if any. -/
  archive : Nat → Option ArchiveFailure

/-- State of the program and of the directory: the file system, the writer
(with the shared reference to the current segment), the number of calls of
`Rotate` so far, and how many of them returned a nil error. -/
structure World where
  fs : FS
  writer : RotateFileWriter
  calls : Nat := 0
  rotations : Nat := 0
deriving DecidableEq, Repr

/-- Go `container.Load().(*fileReplacer)`. -/
def World.cur (w : World) : fileReplacer := w.writer.container

/-- Go `container.Store(f)`; also used for writes through the pointer to the
current segment. -/
def World.store (w : World) (f : fileReplacer) : World :=
  { w with writer := { w.writer with container := f } }

/-- Go `fmt.Sprintf("%d", i)`. -/
def formatInt (i : Int) : String :=
  if i < 0 then "-" ++ Nat.repr i.natAbs else Nat.repr i.toNat

/-- Go `(*os.File).Close` with `envErr` the answer of the operating system:
the handle afterwards, and the error. -/
def File.Close (f : Option File) (envErr : Error) : Option File × Error :=
  match f with
  | none => (none, some "invalid argument")
  | some h =>
    if h.closed then (some h, some "file already closed")
    else (some { h with closed := true }, envErr)

/-- Go `(*os.File).Write(p)`: fails on a nil or closed handle; on an open
handle all of `p` is appended. -/
def File.Write (f : Option File) (fs : FS) (p : List UInt8) : FS × (Int × Error) :=
  match f with
  | none => (fs, (0, some "invalid argument"))
  | some h =>
    if h.closed then (fs, (0, some "file already closed"))
    else (fs.append h.name p.length, (len p, none))

/-- Go `(*fileReplacer).archive(archiveName)`. The archive entry records the
size of the retired file; no compression ratio is modelled. -/
def archive (fs : FS) (archiveName : String) (fail : Option ArchiveFailure) :
    FS × Error :=
  -- reader, err := os.Open(archiveName)
  if fail = some .atOpen then (fs, some "open failed") else
  -- zipFile, err := os.Create(archiveName + ".zip")
  if fail = some .atCreate then (fs, some "create failed") else
  let fs1 := fs.truncate (archiveName ++ ".zip") 0
  -- zipper.Create, io.Copy, zipper.Flush
  if fail = some .atCompress then (fs1, some "zip failed") else
  let fs2 := fs.truncate (archiveName ++ ".zip") ((fs.size archiveName).getD 0)
  -- os.Remove(archiveName)
  if fail = some .atRemove then (fs2, some "remove failed") else
  (fs2.remove archiveName, none)

/-- The `*fileReplacer` returned by `Rotate`: nil, the receiver itself, or
the newly built replacement. -/
inductive Ptr where
  | nil
  | self
  | fresh (r : fileReplacer)
deriving DecidableEq, Repr

/-- Go `(*fileReplacer).Rotate` on the current segment. A background archive
(`go f.archive(...)`) is run to completion on the spot and its error dropped. -/
def Rotate (env : Env) (w : World) : World × Go (Ptr × Error) :=
  let f := w.cur
  let k := w.calls
  let w := { w with calls := k + 1 }
  let now := env.now k
  -- currentName := f.file.Name()
  match f.file with
  | none => (w, .panic "nil pointer dereference")
  | some h =>
    let currentName := h.name
    let archiveName := currentName ++ "." ++ formatInt now
    -- if err := f.file.Close(); err != nil { return nil, err }
    let (file1, cerr) := File.Close f.file (env.close k)
    let w := w.store { f with file := file1 }
    match cerr with
    | some e => (w, .ret (.nil, some e))
    | none =>
    -- if err := rename(currentName, archiveName); err != nil { return f, err }
    match env.rename k with
    | some e => (w, .ret (.self, some e))
    | none =>
    let w := { w with fs := w.fs.rename currentName archiveName }
    -- replacement.file, err = os.OpenFile(currentName, O_APPEND|O_CREATE|O_WRONLY)
    match env.openFile k with
    | some e => (w, .ret (.self, some e))
    | none =>
    let w := { w with fs := w.fs.create currentName }
    let replacement : fileReplacer :=
      { max := f.max, sync := f.sync, file := some { name := currentName } }
    if f.sync then
      match archive w.fs archiveName (env.archive k) with
      | (fs1, some e) => ({ w with fs := fs1 }, .ret (.nil, some e))
      | (fs1, none) =>
        ({ w with fs := fs1, rotations := w.rotations + 1 },
          .ret (.fresh replacement, none))
    else
      ({ w with fs := (archive w.fs archiveName (env.archive k)).1,
                rotations := w.rotations + 1 },
        .ret (.fresh replacement, none))

/-- Result of running a call under a recursion budget: it finished in world
`w` with result `r`, or the budget ran out in world `w` with the call still
recursing. -/
inductive Run (α : Type) where
  | done (w : World) (r : α)
  | more (w : World)
deriving DecidableEq, Repr

/-- Go `(*fileReplacer).Write(p)` on the current segment, with a budget on the
depth of the recursion `replacement.Write(p)`. -/
def fileReplacer.Write (env : Env) : Nat → World → List UInt8 → Run (Go (Int × Error))
  | 0, w, _ => .more w
  | fuel + 1, w, p =>
    let f := w.cur
    -- projected := atomic.AddInt64(&f.count, int64(len(p)))
    let projected := f.count + len p
    let w := w.store { f with count := projected }
    if projected ≤ f.max then
      let (fs1, r) := File.Write f.file w.fs p
      .done { w with fs := fs1 } (.ret r)
    else if f.once then
      -- once.Do does nothing, err stays nil, and the loaded segment is f
      .done w (.ret (0, some "error rotating log"))
    else
      match Rotate env (w.store { w.cur with once := true }) with
      | (w1, .panic m) => .done w1 (.panic m)
      | (w1, .ret (_, some e)) => .done w1 (.ret (0, some ("error rotating log: " ++ e)))
      | (w1, .ret (.fresh r, none)) => fileReplacer.Write env fuel (w1.store r) p
      | (w1, .ret (.self, none)) => .done w1 (.ret (0, some "error rotating log"))
      | (w1, .ret (.nil, none)) => .done w1 (.panic "nil pointer dereference")

/-- Go `(*RotateFileWriter).Write(p)`. -/
def RotateFileWriter.Write (env : Env) (fuel : Nat) (w : World) (p : List UInt8) :
    Run (Go (Int × Error)) :=
  fileReplacer.Write env fuel w p

/-- Go `(*RotateFileWriter).Close()`, with `envErr` the answer of the operating
system to closing an open file. -/
def RotateFileWriter.Close (w : World) (envErr : Error) : World × Error :=
  let w := { w with writer := { w.writer with closed := 1 } }
  let (file1, err) := File.Close w.cur.file envErr
  (w.store { w.cur with file := file1 }, err)

/-- A run of calls of `RotateFileWriter.Write`, one per payload, each with
recursion budget `fuel`; it stops at the first call that exhausts the budget. -/
def writeAll (env : Env) (fuel : Nat) :
    World → List (List UInt8) → Run (List (Go (Int × Error)))
  | w, [] => .done w []
  | w, p :: ps =>
    match RotateFileWriter.Write env fuel w p with
    | .more w1 => .more w1
    | .done w1 r =>
      match writeAll env fuel w1 ps with
      | .more w2 => .more w2
      | .done w2 rs => .done w2 (r :: rs)

/-! ## Construction -/

/-- Construction input. -/
structure RotateFileWriterConfig where
  Path : String
  MaxSizeBytes : Int
  RetentionDuration : Int
  RetentionFiles : Int
  sync : Bool := false
deriving DecidableEq, Repr

/-- The `error` of `os.Stat`, as far as `os.IsNotExist` tells errors apart. -/
inductive StatError where
  | notExist
  | other (msg : String)
deriving DecidableEq, Repr

/-- What the operating system answers during construction. -/
structure ConstructEnv where
  /-- Go `os.Args[0]`. -/
  arg0 : String
  /-- Failure of `os.Stat` for a reason other than a missing file. -/
  stat : Option String
  /-- Error of the initial `os.OpenFile`. -/
  openFile : Error

/-- Go `os.Stat(path)`: the size, and the error. -/
def Stat (env : ConstructEnv) (fs : FS) (path : String) : Option Int × Option StatError :=
  match env.stat with
  | some e => (none, some (.other e))
  | none =>
    match fs.size path with
    | some sz => (some (sz : Int), none)
    | none => (none, some .notExist)

/-- Go `os.IsNotExist(err)`. -/
def IsNotExist (err : Option StatError) : Bool :=
  match err with
  | some .notExist => true
  | _ => false

/-- The `error` interface value holding a `StatError`. -/
def StatError.toError : Option StatError → Error
  | none => none
  | some .notExist => some "no such file or directory"
  | some (.other e) => some e

/-- Go `NewRotateFileWriter(cfg)`: the file system afterwards, the returned
`*RotateFileWriter` and the returned `error`. -/
def NewRotateFileWriter (cfg : RotateFileWriterConfig) (env : ConstructEnv) (fs : FS) :
    FS × Option RotateFileWriter × Error :=
  let cfg := if cfg.Path = "" then { cfg with Path := env.arg0 ++ ".log" } else cfg
  -- 128 MB
  let cfg := if cfg.MaxSizeBytes = 0 then { cfg with MaxSizeBytes := 2 ^ 27 } else cfg
  -- var count int64; fi, err := os.Stat(cfg.Path); if err == nil { count = fi.Size() }
  let (fi, err) := Stat env fs cfg.Path
  let count : Int := if err = none then fi.getD 0 else 0
  -- if !os.IsNotExist(err) { return nil, err }
  if !IsNotExist err then (fs, none, StatError.toError err)
  else
    -- f, ferr := os.OpenFile(w.path, os.O_APPEND|os.O_CREATE|os.O_WRONLY, 0600)
    let (fs1, f) : FS × Option File :=
      match env.openFile with
      | some _ => (fs, none)
      | none => (fs.create cfg.Path, some { name := cfg.Path })
    -- if ferr != nil { err = ferr } : the assigned value is not read again
    let fr : fileReplacer :=
      { file := f, max := cfg.MaxSizeBytes, count := count, sync := cfg.sync }
    (fs1, some { path := cfg.Path, retentionDuration := cfg.RetentionDuration,
                 retentionFiles := cfg.RetentionFiles, container := fr }, none)

/-- The path a configuration resolves to. -/
def resolvedPath (cfg : RotateFileWriterConfig) (env : ConstructEnv) : String :=
  if cfg.Path = "" then env.arg0 ++ ".log" else cfg.Path

/-- Every system call of every rotation succeeds. -/
def Env.allSucceed (env : Env) : Prop :=
  ∀ k, env.close k = none ∧ env.rename k = none ∧ env.openFile k = none ∧
    env.archive k = none

/-- The current segment holds an open file and has not started a rotation. -/
def World.live (w : World) : Prop :=
  w.cur.once = false ∧ ∃ name, w.cur.file = some { name := name, closed := false }

/-- Name of the archive of the rotation stamped `t`. -/
def zipName (path : String) (t : Int) : String :=
  path ++ "." ++ formatInt t ++ ".zip"

/-- The world right after a successful construction over the file system
`fs`. -/
def World.start (fs : FS) (wr : RotateFileWriter) : World :=
  { fs := fs, writer := wr }

/-- The file system after the rotation stamped `t` of the file `name`, with
`fail` the failing step of the archiver, if any. -/
def rotatedFS (fs : FS) (name : String) (t : Int) (fail : Option ArchiveFailure) : FS :=
  (archive ((fs.rename name (name ++ "." ++ formatInt t)).create name)
    (name ++ "." ++ formatInt t) fail).1

/-- The world after a rotation that published a replacement for the segment
on the file `name`. -/
def World.rotated (env : Env) (w : World) (name : String) : World :=
  { fs := rotatedFS w.fs name (env.now w.calls) (env.archive w.calls),
    writer := { w.writer with
      container := { max := w.cur.max, sync := w.cur.sync, file := some { name := name } } },
    calls := w.calls + 1,
    rotations := w.rotations + 1 }

/-- Close, rename and open succeed in every rotation, and so does the
archiver when it runs synchronously (`sync = true`), where its error is
returned by `Rotate`. -/
def Env.rotates (env : Env) (sync : Bool) : Prop :=
  ∀ k, env.close k = none ∧ env.rename k = none ∧ env.openFile k = none ∧
    (sync = true → env.archive k = none)

/-- An environment in which every system call succeeds and the clock reads
`t0 + k` at the `k`-th rotation. -/
def Env.steady (t0 : Int) : Env :=
  { now := fun k => t0 + k, close := fun _ => none, rename := fun _ => none,
    openFile := fun _ => none, archive := fun _ => none }

/-- An environment like `Env.steady` in which the archiver fails at its first
step in every rotation. -/
def Env.noArchive (t0 : Int) : Env :=
  { Env.steady t0 with archive := fun _ => some ArchiveFailure.atOpen }

/-- A world with the live file `sensu.log` of `size` bytes, threshold `max`,
and a segment whose counter stands at `size`. -/
def World.sample (max : Int) (size : Nat) (sync : Bool) : World :=
  { fs := [("sensu.log", size)],
    writer := { retentionFiles := 0, retentionDuration := 0, path := "sensu.log",
                container := { count := size, max := max,
                               file := some { name := "sensu.log" }, sync := sync } } }

/-- The archives left by the first `k` rotations of the log at `path`. -/
def archives (env : Env) (path : String) (k : Nat) : List String :=
  (List.range k).map fun i => zipName path (env.now i)

/-- State of a synchronous writer on `path` with threshold `m` that has only
received payloads of `s` bytes: the live segment has taken `c` of them, `k`
rotations lie behind, each of them successful, and the directory holds the
live file and one archive per rotation. -/
def Steady (env : Env) (path : String) (m : Int) (s c k : Nat) (w : World) : Prop :=
  w.cur.count = (s : Int) * c ∧ w.cur.max = m ∧ w.cur.once = false ∧ w.cur.sync = true ∧
  w.cur.file = some { name := path, closed := false } ∧ w.calls = k ∧ w.rotations = k ∧
  w.fs.names.Perm (path :: archives env path k)

/-- Total number of bytes held by the files of the directory. -/
def FS.bytes (fs : FS) : Nat := (fs.map Prod.snd).sum

/-- The world after the current segment has counted `p` and appended it to
its file `name`. -/
def World.wrote (w : World) (name : String) (p : List UInt8) : World :=
  { (w.store { w.cur with count := w.cur.count + len p }) with
    fs := w.fs.append name p.length }

end logging

/-! ## Properties of `globalid.Parse` -/

namespace globalid

/-- C5: on the three identifiers documented with `Components`, `Parse` does not
return the documented components: the three-part identifier panics on a slice
with a negative bound, and in the five-part identifiers the environment lands
in `resourceType`, `environment` stays empty and the name is never split at
the slash. -/
theorem Parse_documented_examples :
    Parse "srn:users:deanlearner" = Go.panic "slice bounds out of range" ∧
    Parse "srn:checks:auto:staging:disk-full" =
      Go.ret ({ resource := "checks", organization := "auto", environment := "",
                resourceType := "staging", uniqueComponents := ["disk-full"] }, none) ∧
    Parse "srn:entities:default:default:agent/selene.local" =
      Go.ret ({ resource := "entities", organization := "default", environment := "",
                resourceType := "default",
                uniqueComponents := ["agent/selene.local"] }, none) := by
  decide

/-- Every identifier of exactly three colon-separated parts makes `Parse`
panic. -/
theorem Parse_three_parts (gid a b c : String) (h : Split gid ':' = [a, b, c]) :
    Parse gid = Go.panic "slice bounds out of range" := by
  simp [Parse, h, len, elemAt, subslice, Go.bind]

/-- On five colon-separated parts `Parse` stores the fourth part as
`resourceType`, leaves `environment` empty and keeps the fifth part whole. -/
theorem Parse_five_parts (gid a b c d e : String) (h : Split gid ':' = [a, b, c, d, e]) :
    Parse gid = Go.ret ({ resource := b, organization := c, environment := "",
                          resourceType := d, uniqueComponents := [e] }, none) := by
  simp [Parse, h, len, elemAt, subslice, Go.bind]

end globalid

/-! ## Properties of construction -/

namespace logging

/-- C2: when the path names an existing file of size `S` and the stat
succeeds, `NewRotateFileWriter` returns a nil writer together with a nil
error, and leaves the file system as it was: no segment is installed, with
counter `S` or otherwise. -/
theorem NewRotateFileWriter_existing_file (cfg : RotateFileWriterConfig)
    (env : ConstructEnv) (fs : FS) (S : Nat) (hstat : env.stat = none)
    (hsize : fs.size (resolvedPath cfg env) = some S) :
    NewRotateFileWriter cfg env fs = (fs, none, none) := by
  unfold resolvedPath at hsize
  simp only [NewRotateFileWriter, Stat, hstat]
  by_cases hp : cfg.Path = "" <;> by_cases hm : cfg.MaxSizeBytes = 0 <;>
    simp [hp, hm] at hsize ⊢ <;> simp [hsize, IsNotExist, StatError.toError]

/-- Instance of `NewRotateFileWriter_existing_file`: a log file of 1000 bytes
is already in place. -/
theorem NewRotateFileWriter_existing_file_witness :
    NewRotateFileWriter
      { Path := "sensu.log", MaxSizeBytes := 1024, RetentionDuration := 0,
        RetentionFiles := 10 }
      { arg0 := "sensu-agent", stat := none, openFile := none }
      [("sensu.log", 1000)] = ([("sensu.log", 1000)], none, none) :=
  NewRotateFileWriter_existing_file _ _ _ 1000 rfl (by decide)

/-- C8: when the log file does not exist and the initial open fails,
`NewRotateFileWriter` returns a nil error together with a writer whose segment
holds no file. -/
theorem NewRotateFileWriter_open_fails (cfg : RotateFileWriterConfig)
    (env : ConstructEnv) (fs : FS) (e : String) (hstat : env.stat = none)
    (hsize : fs.size (resolvedPath cfg env) = none) (hopen : env.openFile = some e) :
    ∃ w, NewRotateFileWriter cfg env fs = (fs, some w, none) ∧
      w.container.file = none := by
  unfold resolvedPath at hsize
  simp only [NewRotateFileWriter, Stat, hstat, hopen]
  by_cases hp : cfg.Path = "" <;> by_cases hm : cfg.MaxSizeBytes = 0 <;>
    simp [hp, hm] at hsize ⊢ <;> simp [hsize, IsNotExist]

/-- Instance of `NewRotateFileWriter_open_fails`: the directory of the log file
is missing, so the file does not exist and cannot be created. -/
theorem NewRotateFileWriter_open_fails_witness :
    ∃ w, NewRotateFileWriter
      { Path := "/var/log/sensu/sensu.log", MaxSizeBytes := 1024, RetentionDuration := 0,
        RetentionFiles := 10 }
      { arg0 := "sensu-agent", stat := none,
        openFile := some "no such file or directory" } [] = ([], some w, none) ∧
      w.container.file = none :=
  NewRotateFileWriter_open_fails _ _ _ "no such file or directory" rfl (by decide) rfl

/-- A stat failure other than a missing file makes construction fail. -/
theorem NewRotateFileWriter_stat_fails (cfg : RotateFileWriterConfig)
    (env : ConstructEnv) (fs : FS) (e : String) (hstat : env.stat = some e) :
    NewRotateFileWriter cfg env fs = (fs, none, some e) := by
  simp only [NewRotateFileWriter, Stat, hstat]
  by_cases hp : cfg.Path = "" <;> by_cases hm : cfg.MaxSizeBytes = 0 <;>
    simp [hp, hm, IsNotExist, StatError.toError]

end logging

/-! ## Properties of the reaper -/

namespace logging

theorem ageLoop_eq (r : RotateFileWriter) (env : ReapEnv) (files : List String) :
    ageLoop r env files = ([], { removed := [], err := none }) := by
  induction files with
  | nil => rfl
  | cons file rest ih =>
    unfold ageLoop
    simp only [Sscanf, ih, ite_self]

theorem ageFilter_eq (r : RotateFileWriter) (env : ReapEnv) (files : List String) :
    ageFilter r env files = ([], { removed := [], err := none }) := by
  unfold ageFilter
  split
  · exact ageLoop_eq r env _
  · rfl

theorem notTooOld_eq (r : RotateFileWriter) (env : ReapEnv) (files : List String) :
    notTooOld r env files = filesToReap r files := by
  simp [notTooOld, ageFilter_eq]

/-- C3 (Scenario C as the code runs it): with a retention of one hour, an
archive stamped two hours before the pass and one stamped ten minutes before
it, the reap pass removes neither. -/
theorem reap_scenario_C :
    reap { retentionFiles := 0, retentionDuration := 3600000000000, path := "sensu.log",
           container := { max := 1024, file := some { name := "sensu.log" }, sync := false } }
         { openDir := none,
           readdir := .ok ["sensu.log", "sensu.log.1700000000000000000.zip",
                           "sensu.log.1700006600000000000.zip"],
           now := 1700007200000000000,
           remove := fun _ => none }
      = { removed := [], err := none } := by
  decide

end logging

namespace logging

theorem stripPrefix_eq_some : ∀ (p s r : List Char), stripPrefix p s = some r → s = p ++ r
  | [], s, r, h => by simpa [stripPrefix] using h
  | _ :: _, [], r, h => by simp [stripPrefix] at h
  | a :: p, c :: s, r, h => by
    simp only [stripPrefix] at h
    split at h
    · rename_i hac
      rw [hac, stripPrefix_eq_some p s r h]
      rfl
    · cases h

theorem MatchString_shape (path file : String) (h : MatchString path file = true) :
    ∃ ds : List Char, ds ≠ [] ∧ (∀ c ∈ ds, c.isDigit = true) ∧
      file.data = path.data ++ '.' :: (ds ++ ['.', 'z', 'i', 'p']) := by
  unfold MatchString FindStringSubmatch at h
  cases hs : stripPrefix (path.data ++ ['.']) file.data with
  | none => simp [hs] at h
  | some rest =>
    rw [hs] at h
    dsimp only at h
    by_cases hc : rest.takeWhile Char.isDigit ≠ [] ∧
        rest.dropWhile Char.isDigit = ['.', 'z', 'i', 'p']
    · refine ⟨rest.takeWhile Char.isDigit, hc.1, ?_, ?_⟩
      · intro c hcmem
        exact List.mem_takeWhile_imp hcmem
      · have h1 := stripPrefix_eq_some _ _ _ hs
        rw [h1, ← hc.2, List.takeWhile_append_dropWhile]
        simp
    · rw [if_neg hc] at h
      simp at h

theorem removeAll_removed_subset (rm : String → Error) :
    ∀ (l : List String) (x : String), x ∈ (removeAll rm l).removed → x ∈ l
  | [], x, h => by simp [removeAll] at h
  | file :: rest, x, h => by
    unfold removeAll at h
    cases hrm : rm file with
    | some e => simp [hrm] at h
    | none =>
      simp only [hrm, List.mem_cons] at h
      rcases h with h | h
      · exact h ▸ List.mem_cons_self _ _
      · exact List.mem_cons_of_mem _ (removeAll_removed_subset rm rest x h)

theorem removeAll_all_succeed (rm : String → Error) (hrm : ∀ f, rm f = none) :
    ∀ l : List String, removeAll rm l = { removed := l, err := none }
  | [] => rfl
  | file :: rest => by
    unfold removeAll
    simp [hrm file, removeAll_all_succeed rm hrm rest]

theorem mem_sortStrings (l : List String) (x : String) : x ∈ sortStrings l ↔ x ∈ l :=
  (List.perm_insertionSort strLe l).mem_iff

theorem reap_removed_mem (r : RotateFileWriter) (env : ReapEnv) (name : String)
    (h : name ∈ (reap r env).removed) : MatchString r.path name = true := by
  unfold reap at h
  cases ho : env.openDir with
  | some e => simp [ho] at h
  | none =>
    cases hr : env.readdir with
    | error e => simp [ho, hr] at h
    | ok files =>
      simp only [ho, hr, ageFilter_eq, notTooOld_eq, List.nil_append] at h
      split at h
      · have h1 := removeAll_removed_subset _ _ _ h
        have h2 := List.mem_of_mem_drop h1
        rw [mem_sortStrings] at h2
        simp only [filesToReap, List.mem_filter] at h2
        exact h2.2
      · simp at h

theorem isDigit_dot : Char.isDigit '.' = false := by decide

/-- C7: every name a reap pass removes has the form `<path>.<digits>.zip` with
at least one decimal digit; it is neither the live file `<path>` nor a rotated
file `<path>.<digits>` that has not been archived. -/
theorem reap_removes_only_archives (r : RotateFileWriter) (env : ReapEnv) (name : String)
    (h : name ∈ (reap r env).removed) :
    (∃ ds : List Char, ds ≠ [] ∧ (∀ c ∈ ds, c.isDigit = true) ∧
        name = r.path ++ "." ++ String.mk ds ++ ".zip") ∧
    name ≠ r.path ∧
    ∀ ds : List Char, (∀ c ∈ ds, c.isDigit = true) →
      name ≠ r.path ++ "." ++ String.mk ds := by
  obtain ⟨ds, hne, hdig, hdata⟩ := MatchString_shape _ _ (reap_removed_mem r env name h)
  refine ⟨⟨ds, hne, hdig, ?_⟩, ?_, ?_⟩
  · apply String.ext
    simp [hdata, String.data_append]
  · intro heq
    rw [heq] at hdata
    have := congrArg List.length hdata
    simp at this
  · intro ds2 hdig2 heq
    rw [heq] at hdata
    simp only [String.data_append, List.append_assoc] at hdata
    have h1 := List.append_cancel_left hdata
    have h2 : ('.' : Char) ∈ ds2 := by
      simp only [List.singleton_append, List.cons.injEq, true_and] at h1
      rw [h1]
      simp
    have := hdig2 _ h2
    rw [isDigit_dot] at this
    cases this

/-- Instance of `reap_removes_only_archives`: with two archives kept, the pass
over four archives and the live file removes `sensu.log.9.zip`. -/
theorem reap_removes_only_archives_witness :
    "sensu.log.9.zip" ∈
      (reap
        { retentionFiles := 2, retentionDuration := 0, path := "sensu.log",
          container := { max := 1024, file := some { name := "sensu.log" }, sync := false } }
        { openDir := none,
          readdir := .ok ["sensu.log", "sensu.log.5", "sensu.log.10.zip", "sensu.log.9.zip",
                          "sensu.log.100.zip", "sensu.log.7.zip"],
          now := 0, remove := fun _ => none }).removed ∧
    (∃ ds : List Char, ds ≠ [] ∧ (∀ c ∈ ds, c.isDigit = true) ∧
        "sensu.log.9.zip" = "sensu.log" ++ "." ++ String.mk ds ++ ".zip") ∧
    "sensu.log.9.zip" ≠ "sensu.log" ∧
    ∀ ds : List Char, (∀ c ∈ ds, c.isDigit = true) →
      "sensu.log.9.zip" ≠ "sensu.log" ++ "." ++ String.mk ds :=
  ⟨by decide, reap_removes_only_archives
    { retentionFiles := 2, retentionDuration := 0, path := "sensu.log",
      container := { max := 1024, file := some { name := "sensu.log" }, sync := false } }
    { openDir := none,
      readdir := .ok ["sensu.log", "sensu.log.5", "sensu.log.10.zip", "sensu.log.9.zip",
                      "sensu.log.100.zip", "sensu.log.7.zip"],
      now := 0, remove := fun _ => none }
    "sensu.log.9.zip" (by decide)⟩

end logging

namespace logging

theorem lexLe_total : ∀ a b : List Char, lexLe a b = true ∨ lexLe b a = true
  | [], _ => Or.inl (by simp [lexLe])
  | _ :: _, [] => Or.inr (by simp [lexLe])
  | a :: as, b :: bs => by
    simp only [lexLe]
    by_cases h1 : a.toNat < b.toNat
    · simp [h1]
    · by_cases h2 : b.toNat < a.toNat
      · simp [h2]
      · simp only [h1, h2, if_false]
        exact lexLe_total as bs

theorem lexLe_trans : ∀ a b c : List Char,
    lexLe a b = true → lexLe b c = true → lexLe a c = true
  | [], _, _, _, _ => by simp [lexLe]
  | _ :: _, [], _, h, _ => by simp [lexLe] at h
  | _ :: _, _ :: _, [], _, h => by simp [lexLe] at h
  | a :: as, b :: bs, c :: cs, hab, hbc => by
    simp only [lexLe] at hab hbc ⊢
    by_cases h1 : a.toNat < b.toNat
    · by_cases h2 : b.toNat < c.toNat
      · have : a.toNat < c.toNat := by omega
        simp [this]
      · by_cases h3 : c.toNat < b.toNat
        · simp [h2, h3] at hbc
        · have : a.toNat < c.toNat := by omega
          simp [this]
    · by_cases h1b : b.toNat < a.toNat
      · simp [h1, h1b] at hab
      · simp only [h1, h1b, if_false] at hab
        by_cases h2 : b.toNat < c.toNat
        · have : a.toNat < c.toNat := by omega
          simp [this]
        · by_cases h3 : c.toNat < b.toNat
          · simp [h2, h3] at hbc
          · simp only [h2, h3, if_false] at hbc
            have e1 : ¬ a.toNat < c.toNat := by omega
            have e2 : ¬ c.toNat < a.toNat := by omega
            simp only [e1, e2, if_false]
            exact lexLe_trans as bs cs hab hbc

theorem sortStrings_sorted (l : List String) : (sortStrings l).Pairwise strLe :=
  haveI : IsTotal String strLe := ⟨fun a b => lexLe_total a.data b.data⟩
  haveI : IsTrans String strLe := ⟨fun a b c => lexLe_trans a.data b.data c.data⟩
  List.sorted_insertionSort strLe l

theorem sortStrings_perm (l : List String) : (sortStrings l).Perm l :=
  List.perm_insertionSort strLe l

theorem filter_not_mem_drop (l : List String) (k : Nat) (hnd : l.Nodup) :
    l.filter (fun f => !(l.drop k).contains f) = l.take k := by
  rw [← List.take_append_drop k l] at hnd
  have hdisj := (List.nodup_append.1 hnd).2.2
  have hsplit : ∀ q : String → Bool,
      l.filter q = (l.take k).filter q ++ (l.drop k).filter q := by
    intro q
    rw [← List.filter_append, List.take_append_drop]
  rw [hsplit]
  have h1 : (l.take k).filter (fun f => !(l.drop k).contains f) = l.take k := by
    rw [List.filter_eq_self]
    intro a ha
    have : a ∉ l.drop k := fun hb => hdisj ha hb
    simp [this]
  have h2 : (l.drop k).filter (fun f => !(l.drop k).contains f) = [] := by
    rw [List.filter_eq_nil_iff]
    intro a ha
    simp [ha]
  rw [h1, h2, List.append_nil]

/-- C6: in a reap pass over a listing without repeated names in which every
removal succeeds: when `retentionFiles = k > 0` and more than `k` archives
survive the age filter, the pass removes the survivors after index `k` of the
ascending-sorted list; exactly `k` survivors remain, they are the first `k` of
the sorted list, and each of them is lexically at most every removed one. When
`retentionFiles ≤ 0` or at most `k` archives survive, the count filter removes
nothing. -/
theorem reap_count_filter (r : RotateFileWriter) (env : ReapEnv) (files : List String)
    (hopen : env.openDir = none) (hread : env.readdir = .ok files)
    (hnodup : files.Nodup) (hrm : ∀ f, env.remove f = none) :
    (0 < r.retentionFiles ∧ r.retentionFiles < len (notTooOld r env files) →
      (reap r env).removed =
        (ageFilter r env files).2.removed ++
          (sortStrings (notTooOld r env files)).drop r.retentionFiles.toNat ∧
      (((notTooOld r env files).filter
          (fun f => !(reap r env).removed.contains f)).length : Int) = r.retentionFiles ∧
      ((notTooOld r env files).filter (fun f => !(reap r env).removed.contains f)).Perm
        ((sortStrings (notTooOld r env files)).take r.retentionFiles.toNat) ∧
      ∀ a ∈ (notTooOld r env files).filter (fun f => !(reap r env).removed.contains f),
        ∀ b ∈ (reap r env).removed, strLe a b) ∧
    (r.retentionFiles ≤ 0 ∨ len (notTooOld r env files) ≤ r.retentionFiles →
      (reap r env).removed = (ageFilter r env files).2.removed) := by
  have hreap : (reap r env).removed =
      if r.retentionFiles > 0 ∧ len (notTooOld r env files) > r.retentionFiles then
        (sortStrings (notTooOld r env files)).drop r.retentionFiles.toNat
      else [] := by
    unfold reap
    simp only [hopen, hread, ageFilter_eq, List.nil_append]
    split
    · rw [removeAll_all_succeed _ hrm]
    · rfl
  constructor
  · rintro ⟨hk, hlen⟩
    have hcond : r.retentionFiles > 0 ∧ len (notTooOld r env files) > r.retentionFiles :=
      ⟨hk, hlen⟩
    rw [hreap, if_pos hcond]
    set S := notTooOld r env files with hS
    set k := r.retentionFiles.toNat with hkdef
    have hSnd : S.Nodup := by
      rw [hS, notTooOld_eq]
      exact hnodup.filter _
    have hsnd : (sortStrings S).Nodup := (sortStrings_perm S).nodup_iff.2 hSnd
    have hperm : (S.filter (fun f => !((sortStrings S).drop k).contains f)).Perm
        ((sortStrings S).take k) := by
      rw [← filter_not_mem_drop (sortStrings S) k hsnd]
      exact (sortStrings_perm S).symm.filter _
    have hklen : k < S.length := by
      simp only [len] at hlen
      omega
    refine ⟨by simp [ageFilter_eq], ?_, hperm, ?_⟩
    · rw [hperm.length_eq, List.length_take, (sortStrings_perm S).length_eq]
      omega
    · intro a ha b hb
      have ha2 : a ∈ (sortStrings S).take k := hperm.mem_iff.1 ha
      have hsorted := sortStrings_sorted S
      rw [← List.take_append_drop k (sortStrings S)] at hsorted
      exact (List.pairwise_append.1 hsorted).2.2 a ha2 b hb
  · intro h
    rw [hreap, ageFilter_eq]
    have hcond : ¬ (r.retentionFiles > 0 ∧ len (notTooOld r env files) > r.retentionFiles) := by
      rintro ⟨h1, h2⟩
      rcases h with h | h <;> omega
    rw [if_neg hcond]

/-- Instance of `reap_count_filter`: four archives and two to keep. -/
theorem reap_count_filter_witness :
    (reap { retentionFiles := 2, retentionDuration := 0, path := "sensu.log",
            container := { max := 1024, file := some { name := "sensu.log" }, sync := false } }
          { openDir := none,
            readdir := .ok ["sensu.log", "sensu.log.5", "sensu.log.10.zip", "sensu.log.9.zip",
                            "sensu.log.100.zip", "sensu.log.7.zip"],
            now := 0, remove := fun _ => none }).removed
      = ["sensu.log.7.zip", "sensu.log.9.zip"] :=
  ((reap_count_filter
    { retentionFiles := 2, retentionDuration := 0, path := "sensu.log",
      container := { max := 1024, file := some { name := "sensu.log" }, sync := false } }
    { openDir := none,
      readdir := .ok ["sensu.log", "sensu.log.5", "sensu.log.10.zip", "sensu.log.9.zip",
                      "sensu.log.100.zip", "sensu.log.7.zip"],
      now := 0, remove := fun _ => none }
    ["sensu.log", "sensu.log.5", "sensu.log.10.zip", "sensu.log.9.zip",
      "sensu.log.100.zip", "sensu.log.7.zip"]
    rfl rfl (by decide) (fun _ => rfl)).1 (by decide)).1.trans (by decide)

end logging

/-! ## Properties of the write path -/

namespace logging

/-- Once `Close` has been called on a writer whose segment holds a file,
every `Write`, of any payload and with the counter on either side of the
threshold, returns a non-nil error and reports 0 bytes; nothing is written, no
rotation completes and the shared reference still holds the closed segment. -/
theorem Write_after_Close (env : Env) (w : World) (closeErr : Error) (p : List UInt8)
    (fuel : Nat) (hfile : w.cur.file ≠ none) :
    ∃ w1 e,
      RotateFileWriter.Write env (fuel + 1) (RotateFileWriter.Close w closeErr).1 p
        = Run.done w1 (Go.ret (0, some e)) ∧
      w1.fs = w.fs ∧ w1.rotations = w.rotations ∧
      w1.cur.file = (RotateFileWriter.Close w closeErr).1.cur.file ∧
      ∃ h, w1.cur.file = some h ∧ h.closed = true := by
  obtain ⟨fs, wr, calls, rot⟩ := w
  obtain ⟨rf, cl, rd, ⟨count, max, once, file, sync⟩, path⟩ := wr
  cases file with
  | none => exact absurd rfl hfile
  | some h =>
    obtain ⟨name, closed⟩ := h
    simp only [RotateFileWriter.Write, RotateFileWriter.Close, fileReplacer.Write,
      World.cur, World.store, File.Close, File.Write, Rotate]
    cases closed <;> by_cases hle : count + len p ≤ max <;> cases once <;>
      simp [hle, World.cur, World.store, File.Close]

/-- Instance of `Write_after_Close`: a one-byte write to a closed writer. -/
theorem Write_after_Close_witness :
    ∃ w1 e,
      RotateFileWriter.Write
        { now := fun _ => 0, close := fun _ => none, rename := fun _ => none,
          openFile := fun _ => none, archive := fun _ => none } (0 + 1)
        (RotateFileWriter.Close
          { fs := [("sensu.log", 0)],
            writer := { retentionFiles := 0, retentionDuration := 0, path := "sensu.log",
                        container := { max := 1024, file := some { name := "sensu.log" },
                                       sync := false } } } none).1 [33]
        = Run.done w1 (Go.ret (0, some e)) ∧
      w1.fs = [("sensu.log", 0)] ∧ w1.rotations = 0 ∧
      w1.cur.file = (RotateFileWriter.Close
          { fs := [("sensu.log", 0)],
            writer := { retentionFiles := 0, retentionDuration := 0, path := "sensu.log",
                        container := { max := 1024, file := some { name := "sensu.log" },
                                       sync := false } } } none).1.cur.file ∧
      ∃ h, w1.cur.file = some h ∧ h.closed = true :=
  Write_after_Close _ _ none [33] 0 (by decide)

/-- C9 (on the writer that construction returns after a failed open): the
directory of the log file is missing, so `NewRotateFileWriter` returns, with a
nil error, a writer whose segment holds no file. `Close` on it returns an
error, and the following `Write` of 5 bytes against a threshold of 4 does not
return an error: it panics in `Rotate`, at `f.file.Name()`. A `Write` of 2
bytes, within the threshold, returns `(0, error)`. -/
theorem Write_after_Close_without_file :
    NewRotateFileWriter
      { Path := "/var/log/sensu/sensu.log", MaxSizeBytes := 4, RetentionDuration := 0,
        RetentionFiles := 10 }
      { arg0 := "sensu-agent", stat := none, openFile := some "no such file or directory" }
      [] =
      ([], some { retentionFiles := 10, retentionDuration := 0,
                  path := "/var/log/sensu/sensu.log",
                  container := { max := 4, file := none, sync := false } }, none) ∧
    (RotateFileWriter.Close
      (World.start []
        { retentionFiles := 10, retentionDuration := 0, path := "/var/log/sensu/sensu.log",
          container := { max := 4, file := none, sync := false } }) none).2 =
      some "invalid argument" ∧
    RotateFileWriter.Write (Env.steady 0) 2
      (RotateFileWriter.Close
        (World.start []
          { retentionFiles := 10, retentionDuration := 0, path := "/var/log/sensu/sensu.log",
            container := { max := 4, file := none, sync := false } }) none).1
      [33, 33, 33, 33, 33] =
      Run.done
        { fs := [],
          writer := { retentionFiles := 10, closed := 1, retentionDuration := 0,
                      path := "/var/log/sensu/sensu.log",
                      container := { count := 5, max := 4, once := true, file := none,
                                     sync := false } },
          calls := 1, rotations := 0 }
        (Go.panic "nil pointer dereference") ∧
    ∃ w1, RotateFileWriter.Write (Env.steady 0) 2
      (RotateFileWriter.Close
        (World.start []
          { retentionFiles := 10, retentionDuration := 0, path := "/var/log/sensu/sensu.log",
            container := { max := 4, file := none, sync := false } }) none).1
      [33, 33] = Run.done w1 (Go.ret (0, some "invalid argument")) := by
  refine ⟨by decide, by decide, by decide, _, rfl⟩

end logging

namespace logging

theorem archive_none (fs : FS) (a : String) : (archive fs a none).2 = none := by
  simp [archive]

/-- A write that stays within the threshold of a segment with an open file. -/
theorem Write_under (env : Env) (fuel : Nat) (w : World) (p : List UInt8) (name : String)
    (hfile : w.cur.file = some { name := name, closed := false })
    (hle : w.cur.count + len p ≤ w.cur.max) :
    fileReplacer.Write env (fuel + 1) w p =
      Run.done { (w.store { w.cur with count := w.cur.count + len p }) with
                 fs := w.fs.append name p.length } (Go.ret (len p, none)) := by
  obtain ⟨fs, wr, calls, rot⟩ := w
  obtain ⟨rf, cl, rd, ⟨count, max, once, file, sync⟩, path⟩ := wr
  simp only [World.cur] at hfile hle
  subst hfile
  simp [fileReplacer.Write, World.cur, World.store, File.Write, hle]

/-- A write that crosses the threshold of a live segment, when close, rename
and open succeed and a synchronous archive succeeds too: the replacement is
published and the write is retried on it. -/
theorem Write_over (env : Env) (fuel : Nat) (w : World) (p : List UInt8) (name : String)
    (honce : w.cur.once = false)
    (hfile : w.cur.file = some { name := name, closed := false })
    (hgt : w.cur.max < w.cur.count + len p)
    (hc : env.close w.calls = none) (hr : env.rename w.calls = none)
    (ho : env.openFile w.calls = none)
    (ha : w.cur.sync = true → env.archive w.calls = none) :
    fileReplacer.Write env (fuel + 1) w p =
      fileReplacer.Write env fuel (w.rotated env name) p := by
  obtain ⟨fs, wr, calls, rot⟩ := w
  obtain ⟨rf, cl, rd, ⟨count, max, once, file, sync⟩, path⟩ := wr
  simp only [World.cur] at hfile hgt honce ha hc hr ho
  subst hfile honce
  have hnle : ¬ count + len p ≤ max := by omega
  cases sync with
  | false =>
    simp [fileReplacer.Write, World.cur, World.store, Rotate, File.Close, hnle, hc, hr, ho,
      World.rotated, rotatedFS]
  | true =>
    have ha2 := ha rfl
    simp [fileReplacer.Write, World.cur, World.store, Rotate, File.Close, hnle, hc, hr, ho,
      ha2, World.rotated, rotatedFS]
    have h2 := archive_none ((FS.rename fs name (name ++ "." ++ formatInt (env.now calls))).create name)
      (name ++ "." ++ formatInt (env.now calls))
    generalize archive ((FS.rename fs name (name ++ "." ++ formatInt (env.now calls))).create name)
      (name ++ "." ++ formatInt (env.now calls)) none = x at h2 ⊢
    obtain ⟨x1, x2⟩ := x
    simp only at h2
    subst h2
    rfl

end logging

/-! ## Names of rotated files -/

namespace logging

theorem digitChar_spec (k : Nat) (hk : k < 10) :
    (Nat.digitChar k).isDigit = true ∧ (Nat.digitChar k).toNat - '0'.toNat = k := by
  interval_cases k <;> exact ⟨by decide, by decide⟩

theorem decimalValue_append (L : List Char) (d : Char) :
    decimalValue (L ++ [d]) = 10 * decimalValue L + (d.toNat - '0'.toNat) := by
  simp [decimalValue, List.foldl_append]

theorem toDigitsCore_spec : ∀ (fuel n : Nat), n < fuel →
    ∃ L : List Char, (∀ ds, Nat.toDigitsCore 10 fuel n ds = L ++ ds) ∧
      decimalValue L = n ∧ ∀ c ∈ L, c.isDigit = true
  | 0, n, h => absurd h (Nat.not_lt_zero n)
  | fuel + 1, n, h => by
    have hd := digitChar_spec (n % 10) (Nat.mod_lt _ (by decide))
    by_cases h0 : n / 10 = 0
    · refine ⟨[Nat.digitChar (n % 10)], ?_, ?_, ?_⟩
      · intro ds
        simp [Nat.toDigitsCore, h0]
      · have : n % 10 = n := by omega
        simp only [decimalValue, List.foldl_cons, List.foldl_nil, Nat.mul_zero, Nat.zero_add]
        rw [hd.2, this]
      · intro c hc
        rw [List.mem_singleton.1 hc]
        exact hd.1
    · obtain ⟨L, hL, hv, hdig⟩ := toDigitsCore_spec fuel (n / 10) (by omega)
      refine ⟨L ++ [Nat.digitChar (n % 10)], ?_, ?_, ?_⟩
      · intro ds
        simp [Nat.toDigitsCore, h0, hL]
      · rw [decimalValue_append, hv, hd.2]
        omega
      · intro c hc
        rcases List.mem_append.1 hc with hc | hc
        · exact hdig c hc
        · rw [List.mem_singleton.1 hc]
          exact hd.1

theorem repr_spec (n : Nat) :
    decimalValue (Nat.repr n).data = n ∧ ∀ c ∈ (Nat.repr n).data, c.isDigit = true := by
  obtain ⟨L, hL, hv, hdig⟩ := toDigitsCore_spec (n + 1) n (Nat.lt_succ_self n)
  have : (Nat.repr n).data = L := by
    show Nat.toDigitsCore 10 (n + 1) n [] = L
    rw [hL, List.append_nil]
  rw [this]
  exact ⟨hv, hdig⟩

theorem formatInt_data (t : Int) :
    (formatInt t).data =
      if t < 0 then '-' :: (Nat.repr t.natAbs).data else (Nat.repr t.toNat).data := by
  unfold formatInt
  split <;> rfl

theorem formatInt_chars (t : Int) : ∀ c ∈ (formatInt t).data, c = '-' ∨ c.isDigit = true := by
  intro c hc
  rw [formatInt_data] at hc
  split at hc
  · rcases List.mem_cons.1 hc with h | h
    · exact Or.inl h
    · exact Or.inr ((repr_spec _).2 c h)
  · exact Or.inr ((repr_spec _).2 c hc)

theorem formatInt_injective : Function.Injective formatInt := by
  intro a b h
  have hd := congrArg String.data h
  rw [formatInt_data, formatInt_data] at hd
  by_cases ha : a < 0 <;> by_cases hb : b < 0
  · simp only [ha, hb, if_true, List.cons.injEq, true_and] at hd
    have := congrArg decimalValue hd
    rw [(repr_spec _).1, (repr_spec _).1] at this
    omega
  · simp only [ha, hb, if_true, if_false] at hd
    have hm : '-' ∈ (Nat.repr b.toNat).data := by rw [← hd]; exact List.mem_cons_self _ _
    exact absurd ((repr_spec _).2 _ hm) (by decide)
  · simp only [ha, hb, if_true, if_false] at hd
    have hm : '-' ∈ (Nat.repr a.toNat).data := by rw [hd]; exact List.mem_cons_self _ _
    exact absurd ((repr_spec _).2 _ hm) (by decide)
  · simp only [ha, hb, if_false] at hd
    have := congrArg decimalValue hd
    rw [(repr_spec _).1, (repr_spec _).1] at this
    omega

/-- The name of a rotated file that has not been archived. -/
theorem archiveName_ne_zipName (path : String) (t u : Int) :
    path ++ "." ++ formatInt t ≠ zipName path u := by
  intro h
  have hd := congrArg String.data h
  simp only [zipName, String.data_append, List.append_assoc] at hd
  have h1 := List.append_cancel_left (List.append_cancel_left hd)
  have hm : '.' ∈ (formatInt t).data := by
    rw [h1]
    apply List.mem_append_right
    decide
  rcases formatInt_chars t _ hm with h2 | h2
  · exact absurd h2 (by decide)
  · exact absurd h2 (by decide)

theorem archiveName_ne_path (path : String) (t : Int) : path ++ "." ++ formatInt t ≠ path := by
  intro h
  have hd := congrArg (fun s => s.data.length) h
  simp [String.data_append] at hd

theorem zipName_ne_path (path : String) (t : Int) : zipName path t ≠ path := by
  intro h
  have hd := congrArg (fun s => s.data.length) h
  simp [zipName, String.data_append] at hd

theorem zipName_injective (path : String) : Function.Injective (zipName path) := by
  intro t u h
  have hd := congrArg String.data h
  simp only [zipName, String.data_append, List.append_assoc] at hd
  have h1 := List.append_cancel_right (List.append_cancel_left (List.append_cancel_left hd))
  exact formatInt_injective (String.ext h1)

theorem zipName_eq (path : String) (t : Int) :
    path ++ "." ++ formatInt t ++ ".zip" = zipName path t := rfl

end logging

/-! ## Bytes on disk across rotations -/

namespace logging

theorem bytes_cons (e : String × Nat) (fs : FS) : FS.bytes (e :: fs) = e.2 + FS.bytes fs := by
  simp [FS.bytes]

theorem remove_cons (e : String × Nat) (fs : FS) (n : String) :
    FS.remove (e :: fs) n = if e.1 = n then FS.remove fs n else e :: FS.remove fs n := by
  by_cases h : e.1 = n <;> simp [FS.remove, List.filter_cons, h]

theorem bytes_remove_le (fs : FS) (n : String) : (fs.remove n).bytes ≤ fs.bytes := by
  induction fs with
  | nil => exact Nat.le_refl _
  | cons e rest ih =>
    rw [remove_cons, bytes_cons]
    split
    · omega
    · rw [bytes_cons]
      omega

theorem size_add_bytes_remove_le (fs : FS) (n : String) :
    (fs.size n).getD 0 + (fs.remove n).bytes ≤ fs.bytes := by
  induction fs with
  | nil => simp [FS.size, FS.remove, FS.bytes]
  | cons e rest ih =>
    rw [remove_cons, bytes_cons]
    by_cases h : e.1 = n
    · have hs : FS.size (e :: rest) n = some e.2 := by simp [FS.size, h]
      rw [if_pos h, hs]
      have := bytes_remove_le rest n
      simp only [Option.getD_some]
      omega
    · have hs : FS.size (e :: rest) n = FS.size rest n := by simp [FS.size, h]
      rw [if_neg h, hs, bytes_cons]
      omega

theorem remove_comm (fs : FS) (a b : String) :
    (fs.remove a).remove b = (fs.remove b).remove a := by
  simp only [FS.remove, List.filter_filter]
  congr 1
  funext e
  exact Bool.and_comm _ _

theorem bytes_map_rekey (fs : FS) (old new : String) :
    FS.bytes (fs.map (fun e => if e.1 = old then (new, e.2) else e)) = FS.bytes fs := by
  induction fs with
  | nil => rfl
  | cons e rest ih =>
    rw [List.map_cons, bytes_cons, bytes_cons, ih]
    split <;> rfl

theorem bytes_rename_le (fs : FS) (old new : String) :
    (fs.rename old new).bytes ≤ fs.bytes := by
  unfold FS.rename
  split
  · exact Nat.le_refl _
  · rw [bytes_map_rekey]
    exact bytes_remove_le fs new

theorem bytes_create (fs : FS) (n : String) : (fs.create n).bytes = fs.bytes := by
  unfold FS.create
  split
  · rfl
  · simp [bytes_cons]

theorem zip_ne_self (a : String) : a ++ ".zip" ≠ a := by
  intro h
  have hd := congrArg (fun s => s.data.length) h
  simp [String.data_append] at hd

/-- A successful run of the archiver adds no byte to the directory. -/
theorem bytes_archive_le (F : FS) (a : String) : (archive F a none).1.bytes ≤ F.bytes := by
  have hfs : (archive F a none).1 =
      (a ++ ".zip", (F.size a).getD 0) :: ((F.remove a).remove (a ++ ".zip")) := by
    simp only [archive, reduceCtorEq, if_false, FS.truncate]
    rw [remove_cons, if_neg (zip_ne_self a), remove_comm]
  have h2 := size_add_bytes_remove_le F a
  have h3 := bytes_remove_le (F.remove a) (a ++ ".zip")
  rw [hfs, bytes_cons]
  show (F.size a).getD 0 + _ ≤ _
  omega

/-- A rotation whose archiver succeeds adds no byte to the directory. -/
theorem bytes_rotatedFS_le (fs : FS) (name : String) (t : Int) :
    (rotatedFS fs name t none).bytes ≤ fs.bytes := by
  unfold rotatedFS
  refine (bytes_archive_le _ _).trans ?_
  rw [bytes_create]
  exact bytes_rename_le _ _ _

end logging

namespace logging

theorem rotated_cur (env : Env) (w : World) (name : String) :
    (w.rotated env name).cur =
      { max := w.cur.max, sync := w.cur.sync, file := some { name := name } } := rfl

theorem rotated_live (env : Env) (w : World) (name : String) : (w.rotated env name).live :=
  ⟨rfl, name, rfl⟩

theorem rotated_iterate_bytes (env : Env) (hok : env.allSucceed) (name : String) :
    ∀ (fuel : Nat) (w : World),
      ((fun v : World => v.rotated env name)^[fuel] w).fs.bytes ≤ w.fs.bytes
  | 0, _ => Nat.le_refl _
  | fuel + 1, w => by
    rw [Function.iterate_succ_apply]
    refine (rotated_iterate_bytes env hok name fuel (w.rotated env name)).trans ?_
    show (rotatedFS w.fs name (env.now w.calls) (env.archive w.calls)).bytes ≤ _
    rw [(hok w.calls).2.2.2]
    exact bytes_rotatedFS_le _ _ _

/-- With every system call succeeding, a payload larger than the threshold
keeps a live segment rotating: whatever the budget, the call is still
recursing when it is used up, and the world it has reached is the result of
one rotation per level and of nothing else. -/
theorem Write_diverges (env : Env) (hok : env.allSucceed) (p : List UInt8) (name : String) :
    ∀ (fuel : Nat) (w : World), w.cur.once = false →
      w.cur.file = some { name := name, closed := false } → 0 ≤ w.cur.count →
      w.cur.max < len p →
      fileReplacer.Write env fuel w p =
        Run.more ((fun v : World => v.rotated env name)^[fuel] w)
  | 0, _, _, _, _, _ => rfl
  | fuel + 1, w, honce, hfile, hcount, hgt => by
    obtain ⟨hc, hr, ho, ha⟩ := hok w.calls
    rw [Write_over env fuel w p name honce hfile (by omega) hc hr ho (fun _ => ha),
      Function.iterate_succ_apply]
    exact Write_diverges env hok p name fuel (w.rotated env name) rfl rfl
      (by rw [rotated_cur]) (by rw [rotated_cur]; exact hgt)

theorem rotated_iterate_rotations (env : Env) (name : String) :
    ∀ (fuel : Nat) (w : World),
      ((fun v : World => v.rotated env name)^[fuel] w).rotations = w.rotations + fuel
  | 0, _ => rfl
  | fuel + 1, w => by
    rw [Function.iterate_succ_apply, rotated_iterate_rotations env name fuel]
    show w.rotations + 1 + fuel = _
    omega

theorem Env.allSucceed.rotates {env : Env} (hok : env.allSucceed) (sync : Bool) :
    env.rotates sync :=
  fun k => ⟨(hok k).1, (hok k).2.1, (hok k).2.2.1, fun _ => (hok k).2.2.2⟩

/-- When close, rename and open succeed, and a synchronous archive too, a
payload within the threshold is written by a live segment after at most one
rotation. -/
theorem Write_fits (env : Env) (p : List UInt8) (w : World) (hok : env.rotates w.cur.sync)
    (hlive : w.live) (hle : len p ≤ w.cur.max) (fuel : Nat) :
    ∃ w1, fileReplacer.Write env (fuel + 2) w p = Run.done w1 (Go.ret (len p, none)) ∧
      w1.live ∧ w1.cur.max = w.cur.max ∧ w1.cur.sync = w.cur.sync ∧
      ((w1.rotations = w.rotations ∧ w1.calls = w.calls ∧
          w1.cur.count = w.cur.count + len p ∧ w1.cur.count ≤ w.cur.max) ∨
       (w1.rotations = w.rotations + 1 ∧ w1.calls = w.calls + 1 ∧
          w1.cur.count = len p ∧ w.cur.max < w.cur.count + len p)) := by
  obtain ⟨honce, name, hfile⟩ := hlive
  by_cases hproj : w.cur.count + len p ≤ w.cur.max
  · rw [Write_under env (fuel + 1) w p name hfile hproj]
    refine ⟨_, rfl, ⟨?_, name, ?_⟩, ?_, ?_, Or.inl ⟨rfl, rfl, ?_, ?_⟩⟩ <;>
      simp [World.cur, World.store] <;> first | exact honce | exact hfile | exact hproj
  · obtain ⟨hc, hr, ho, ha⟩ := hok w.calls
    rw [Write_over env (fuel + 1) w p name honce hfile (by omega) hc hr ho ha]
    have hle2 : (w.rotated env name).cur.count + len p ≤ (w.rotated env name).cur.max := by
      rw [rotated_cur]
      simpa using hle
    rw [Write_under env fuel (w.rotated env name) p name (by rw [rotated_cur]) hle2]
    have hgt : w.cur.max < w.cur.count + len p := by omega
    refine ⟨_, rfl, ⟨?_, name, ?_⟩, ?_, ?_, Or.inr ⟨rfl, rfl, ?_, hgt⟩⟩ <;>
      simp [World.cur, World.store, World.rotated]

/-- The world a write within the threshold leaves behind: the payload has been
appended to the file of the segment, directly or after one rotation. -/
theorem Write_fits_world (env : Env) (p : List UInt8) (w : World) (name : String)
    (hok : env.rotates w.cur.sync) (honce : w.cur.once = false)
    (hfile : w.cur.file = some { name := name, closed := false })
    (hle : len p ≤ w.cur.max) (fuel : Nat) :
    fileReplacer.Write env (fuel + 2) w p = Run.done (w.wrote name p) (Go.ret (len p, none)) ∨
    fileReplacer.Write env (fuel + 2) w p =
      Run.done ((w.rotated env name).wrote name p) (Go.ret (len p, none)) := by
  by_cases hproj : w.cur.count + len p ≤ w.cur.max
  · exact Or.inl (Write_under env (fuel + 1) w p name hfile hproj)
  · obtain ⟨hc, hr, ho, ha⟩ := hok w.calls
    have hle2 : (w.rotated env name).cur.count + len p ≤ (w.rotated env name).cur.max := by
      rw [rotated_cur]
      simpa using hle
    refine Or.inr ?_
    rw [Write_over env (fuel + 1) w p name honce hfile (by omega) hc hr ho ha]
    exact Write_under env fuel (w.rotated env name) p name (by rw [rotated_cur]) hle2

/-- C10: with every system call succeeding and a live current segment whose
counter is not negative, `fileReplacer.Write` returns exactly when the payload
is no longer than the threshold. A payload within the threshold is written:
under any budget of at least two levels the result is `(len(p), nil)` after at
most one rotation, and the payload has been appended to the file of the
segment, the old one or the freshly published one. A longer payload is never
written: under every budget the call is still recursing when the budget is
used up, the world it has reached is the result of one rotation per level and
of nothing else, and the directory holds no more bytes than before. -/
theorem Write_terminates_iff (env : Env) (hok : env.allSucceed) (w : World)
    (hlive : w.live) (hcount : 0 ≤ w.cur.count) (p : List UInt8) :
    (len p ≤ w.cur.max → ∀ fuel, 2 ≤ fuel →
      ∃ w1, fileReplacer.Write env fuel w p = Run.done w1 (Go.ret (len p, none)) ∧
        w1.rotations ≤ w.rotations + 1 ∧
        ∀ name, w.cur.file = some { name := name, closed := false } →
          w1 = w.wrote name p ∨ w1 = (w.rotated env name).wrote name p) ∧
    (w.cur.max < len p → ∀ fuel,
      ∃ w1, fileReplacer.Write env fuel w p = Run.more w1 ∧
        w1.rotations = w.rotations + fuel ∧
        w1.fs.bytes ≤ w.fs.bytes ∧
        ∀ name, w.cur.file = some { name := name, closed := false } →
          w1 = (fun v : World => v.rotated env name)^[fuel] w) ∧
    ((∃ fuel w1 r, fileReplacer.Write env fuel w p = Run.done w1 r) ↔
      len p ≤ w.cur.max) := by
  obtain ⟨honce, name, hfile⟩ := hlive
  have hname : ∀ name2, w.cur.file = some { name := name2, closed := false } →
      name2 = name := by
    intro name2 h2
    rw [hfile] at h2
    injection h2 with h3
    injection h3 with h4
    exact h4.symm
  refine ⟨?_, ?_, ?_⟩
  · intro hle fuel hfuel
    obtain ⟨k, rfl⟩ : ∃ k, fuel = k + 2 := ⟨fuel - 2, by omega⟩
    rcases Write_fits_world env p w name (hok.rotates _) honce hfile hle k with h | h
    · refine ⟨_, h, Nat.le_succ _, fun name2 h2 => Or.inl ?_⟩
      rw [hname name2 h2]
    · refine ⟨_, h, Nat.le_refl _, fun name2 h2 => Or.inr ?_⟩
      rw [hname name2 h2]
  · intro hgt fuel
    refine ⟨_, Write_diverges env hok p name fuel w honce hfile hcount hgt,
      rotated_iterate_rotations env name fuel w, rotated_iterate_bytes env hok name fuel w,
      fun name2 h2 => ?_⟩
    rw [hname name2 h2]
  · constructor
    · rintro ⟨fuel, w1, r, h⟩
      by_contra hgt
      rw [Write_diverges env hok p name fuel w honce hfile hcount (by omega)] at h
      cases h
    · intro hle
      rcases Write_fits_world env p w name (hok.rotates _) honce hfile hle 0 with h | h
      · exact ⟨2, _, _, h⟩
      · exact ⟨2, _, _, h⟩

/-- Instance of `Write_terminates_iff`: a segment of threshold 4 that already
counts 3 bytes, with the 3 bytes on disk. A 2-byte payload is written after one
rotation; a 5-byte payload is still unwritten after any number of levels, and
the directory never holds more than the 3 bytes. -/
theorem Write_terminates_iff_witness :
    (Env.steady 0).allSucceed ∧ (World.sample 4 3 true).live ∧
    (∀ fuel, 2 ≤ fuel →
      ∃ w1, fileReplacer.Write (Env.steady 0) fuel (World.sample 4 3 true) [33, 33] =
          Run.done w1 (Go.ret (2, none)) ∧
        w1.rotations ≤ 1) ∧
    (∀ fuel,
      ∃ w1, fileReplacer.Write (Env.steady 0) fuel (World.sample 4 3 true)
          [33, 33, 33, 33, 33] = Run.more w1 ∧
        w1.rotations = fuel ∧ w1.fs.bytes ≤ 3) := by
  refine ⟨fun _ => ⟨rfl, rfl, rfl, rfl⟩, ⟨rfl, _, rfl⟩, ?_, ?_⟩
  · intro fuel hfuel
    obtain ⟨w1, h1, h2, _⟩ :=
      (Write_terminates_iff (Env.steady 0) (fun _ => ⟨rfl, rfl, rfl, rfl⟩)
        (World.sample 4 3 true) ⟨rfl, _, rfl⟩ (by decide) [33, 33]).1 (by decide) fuel hfuel
    exact ⟨w1, h1, by simpa [World.sample] using h2⟩
  · intro fuel
    obtain ⟨w1, h1, h2, h3, _⟩ :=
      (Write_terminates_iff (Env.steady 0) (fun _ => ⟨rfl, rfl, rfl, rfl⟩)
        (World.sample 4 3 true) ⟨rfl, _, rfl⟩ (by decide)
        [33, 33, 33, 33, 33]).2.1 (by decide) fuel
    exact ⟨w1, h1, by simpa [World.sample] using h2, by simpa [World.sample, FS.bytes] using h3⟩

end logging

namespace logging

/-- When close, rename and open succeed, and a synchronous archive too, every
payload within the threshold is written by a live writer. -/
theorem writeAll_fits (env : Env) :
    ∀ (ps : List (List UInt8)) (w : World), env.rotates w.cur.sync → w.live →
      (∀ q ∈ ps, len q ≤ w.cur.max) →
      ∃ w2, writeAll env 2 w ps = Run.done w2 (ps.map fun q => Go.ret (len q, none))
  | [], w, _, _, _ => ⟨w, rfl⟩
  | q :: ps, w, hok, hlive, hall => by
    obtain ⟨w1, h1, hlive1, hmax1, hsync1, _⟩ :=
      Write_fits env q w hok hlive (hall q (List.mem_cons_self _ _)) 0
    obtain ⟨w2, h2⟩ := writeAll_fits env ps w1 (hsync1 ▸ hok) hlive1
      (fun x hx => hmax1 ▸ hall x (List.mem_cons_of_mem _ hx))
    refine ⟨w2, ?_⟩
    simp only [writeAll, RotateFileWriter.Write, List.map_cons]
    rw [show fileReplacer.Write env 2 w q = _ from h1]
    simp only [h2]

/-- A write that crosses the threshold of a live segment in synchronous mode,
when close, rename and open succeed and the archiver fails: `Rotate` returns
the archiver's error, the replacement is not stored, and the write fails. -/
theorem Write_over_sync_archive_fails (env : Env) (fuel : Nat) (w : World)
    (p : List UInt8) (name : String) (honce : w.cur.once = false)
    (hfile : w.cur.file = some { name := name, closed := false })
    (hgt : w.cur.max < w.cur.count + len p)
    (hc : env.close w.calls = none) (hr : env.rename w.calls = none)
    (ho : env.openFile w.calls = none) (hsync : w.cur.sync = true)
    (ha : env.archive w.calls ≠ none) :
    ∃ w1 e, fileReplacer.Write env (fuel + 1) w p = Run.done w1 (Go.ret (0, some e)) ∧
      w1.rotations = w.rotations ∧
      w1.cur = { w.cur with count := w.cur.count + len p, once := true,
                            file := some { name := name, closed := true } } := by
  obtain ⟨fs, wr, calls, rot⟩ := w
  obtain ⟨rf, cl, rd, ⟨count, max, once, file, sync⟩, path⟩ := wr
  simp only [World.cur] at hfile hgt honce ha hc hr ho hsync
  subst hfile honce hsync
  have hnle : ¬ count + len p ≤ max := by omega
  cases hf : env.archive calls with
  | none => exact absurd hf ha
  | some fl =>
    cases fl <;>
      simp [fileReplacer.Write, World.cur, World.store, Rotate, File.Close, hnle, hc, hr, ho,
        hf, archive]

/-- C4 (as the code behaves): take a write within the threshold that crosses
the counter of a live segment, in a rotation whose close, rename and open
succeed and whose archiving fails. In background mode the rotation stands: the
replacement segment is published with the payload counted, the write returns
`(len(p), nil)`, and so does every later write of a payload within the
threshold, as long as close, rename and open keep succeeding. In synchronous
mode `Rotate` returns the archiving error: the write returns 0 bytes and a
non-nil error, and the shared reference still holds the retired segment, its
file closed. -/
theorem rotation_with_failed_archive (env : Env) (w : World) (p : List UInt8)
    (later : List (List UInt8)) (hlive : w.live)
    (hsys : ∀ k, env.close k = none ∧ env.rename k = none ∧ env.openFile k = none)
    (hfail : env.archive w.calls ≠ none)
    (hover : w.cur.max < w.cur.count + len p) (hp : len p ≤ w.cur.max)
    (hlater : ∀ q ∈ later, len q ≤ w.cur.max) :
    (w.cur.sync = false →
      ∃ w1 w2, RotateFileWriter.Write env 2 w p = Run.done w1 (Go.ret (len p, none)) ∧
        w1.rotations = w.rotations + 1 ∧ w1.cur.count = len p ∧ w1.live ∧
        writeAll env 2 w1 later = Run.done w2 (later.map fun q => Go.ret (len q, none))) ∧
    (w.cur.sync = true →
      ∃ w1 e, RotateFileWriter.Write env 2 w p = Run.done w1 (Go.ret (0, some e)) ∧
        w1.rotations = w.rotations ∧ w1.cur.once = true ∧
        ∃ name, w1.cur.file = some { name := name, closed := true }) := by
  constructor
  · intro hsync
    have hok : env.rotates w.cur.sync := fun k =>
      ⟨(hsys k).1, (hsys k).2.1, (hsys k).2.2, fun h => by rw [hsync] at h; cases h⟩
    obtain ⟨w1, h1, hlive1, hmax1, hsync1, h2⟩ := Write_fits env p w hok hlive hp 0
    obtain ⟨w2, h3⟩ := writeAll_fits env later w1 (hsync1 ▸ hok) hlive1
      (fun x hx => hmax1 ▸ hlater x hx)
    refine ⟨w1, w2, h1, ?_, ?_, hlive1, h3⟩
    · rcases h2 with h2 | h2
      · omega
      · exact h2.1
    · rcases h2 with h2 | h2
      · omega
      · exact h2.2.2.1
  · intro hsync
    obtain ⟨honce, name, hfile⟩ := hlive
    obtain ⟨w1, e, h1, h2, h3⟩ := Write_over_sync_archive_fails env 1 w p name honce hfile
      hover (hsys _).1 (hsys _).2.1 (hsys _).2.2 hsync hfail
    exact ⟨w1, e, h1, h2, by rw [h3], name, by rw [h3]⟩

/-- C4 fails in synchronous mode: a segment of threshold 4 counts 3 bytes,
close, rename and open succeed, the archiver fails; the 2-byte write that
triggers the rotation returns 0 bytes and an error, and the shared reference
still holds the old segment with its file closed. -/
theorem sync_archive_failure_blocks_rotation :
    RotateFileWriter.Write (Env.noArchive 0) 2 (World.sample 4 3 true) [33, 33] =
      Run.done
        { fs := [("sensu.log", 0), ("sensu.log.0", 3)],
          writer := { retentionFiles := 0, retentionDuration := 0, path := "sensu.log",
                      container := { count := 5, max := 4, once := true,
                                     file := some { name := "sensu.log", closed := true },
                                     sync := true } },
          calls := 1, rotations := 0 }
        (Go.ret (0, some "error rotating log: open failed")) ∧
    ¬ ∃ w1, RotateFileWriter.Write (Env.noArchive 0) 2 (World.sample 4 3 true) [33, 33] =
      Run.done w1 (Go.ret (len [33, 33], none)) := by
  have heval : RotateFileWriter.Write (Env.noArchive 0) 2 (World.sample 4 3 true) [33, 33] =
      Run.done
        { fs := [("sensu.log", 0), ("sensu.log.0", 3)],
          writer := { retentionFiles := 0, retentionDuration := 0, path := "sensu.log",
                      container := { count := 5, max := 4, once := true,
                                     file := some { name := "sensu.log", closed := true },
                                     sync := true } },
          calls := 1, rotations := 0 }
        (Go.ret (0, some "error rotating log: open failed")) := by
    decide
  refine ⟨heval, ?_⟩
  rintro ⟨w1, h⟩
  rw [heval] at h
  injection h with _ h2
  injection h2 with h3
  exact absurd (congrArg Prod.fst h3) (by decide)

/-- Instance of `rotation_with_failed_archive`: threshold 4, a counter at 3, a
2-byte write and two later writes, the archiver failing in every rotation. -/
theorem rotation_with_failed_archive_witness :
    (World.sample 4 3 false).live ∧
    (Env.noArchive 0).archive (World.sample 4 3 false).calls ≠ none ∧
    ((World.sample 4 3 false).cur.sync = false →
      ∃ w1 w2, RotateFileWriter.Write (Env.noArchive 0) 2 (World.sample 4 3 false) [33, 33] =
          Run.done w1 (Go.ret (len [33, 33], none)) ∧
        w1.rotations = (World.sample 4 3 false).rotations + 1 ∧
        w1.cur.count = len [33, 33] ∧ w1.live ∧
        writeAll (Env.noArchive 0) 2 w1 [[33, 33, 33], [33, 33]] =
          Run.done w2 ([[33, 33, 33], [33, 33]].map fun q => Go.ret (len q, none))) :=
  ⟨⟨rfl, _, rfl⟩, by decide,
    (rotation_with_failed_archive (Env.noArchive 0) (World.sample 4 3 false) [33, 33]
      [[33, 33, 33], [33, 33]] ⟨rfl, _, rfl⟩ (fun _ => ⟨rfl, rfl, rfl⟩) (by decide)
      (by decide) (by decide) (by decide)).1⟩

end logging

/-! ## The directory across rotations -/

namespace logging

theorem names_remove (fs : FS) (n : String) :
    (fs.remove n).names = fs.names.filter (fun x => x ≠ n) := by
  unfold FS.remove FS.names
  rw [List.filter_map]
  rfl

theorem names_append (fs : FS) (n : String) (k : Nat) : (fs.append n k).names = fs.names := by
  induction fs with
  | nil => rfl
  | cons e rest ih =>
    simp only [FS.append, FS.names, List.map_cons, List.cons.injEq] at ih ⊢
    refine ⟨?_, ih⟩
    split <;> rfl

theorem names_truncate (fs : FS) (n : String) (sz : Nat) :
    (fs.truncate n sz).names = n :: fs.names.filter (fun x => x ≠ n) := by
  show n :: (fs.remove n).names = _
  rw [names_remove]

theorem names_create (fs : FS) (n : String) (h : n ∉ fs.names) :
    (fs.create n).names = n :: fs.names := by
  unfold FS.create
  rw [if_neg h]
  rfl

theorem names_rename (fs : FS) (old new : String) (h : old ≠ new) :
    (fs.rename old new).names =
      (fs.names.filter (fun x => x ≠ new)).map (fun x => if x = old then new else x) := by
  simp only [FS.rename, h, if_false]
  rw [← names_remove]
  generalize fs.remove new = g
  induction g with
  | nil => rfl
  | cons e rest ih =>
    simp only [FS.names, List.map_cons, List.cons.injEq] at ih ⊢
    refine ⟨?_, ih⟩
    split <;> rfl

theorem filter_ne_of_not_mem (l : List String) (n : String) (h : n ∉ l) :
    l.filter (fun x => x ≠ n) = l := by
  rw [List.filter_eq_self]
  intro a ha
  have : a ≠ n := fun e => h (e ▸ ha)
  simpa using this

theorem map_rekey_of_not_mem (l : List String) (old new : String) (h : old ∉ l) :
    l.map (fun x => if x = old then new else x) = l := by
  conv_rhs => rw [← List.map_id l]
  apply List.map_congr_left
  intro a ha
  have : a ≠ old := fun e => h (e ▸ ha)
  simp [this]

/-- The directory after a rotation whose archiver succeeds: the rotated file
is gone, its archive is new, everything else is as before. -/
theorem names_rotatedFS (fs : FS) (path : String) (t : Int) (Z : List String)
    (hperm : fs.names.Perm (path :: Z))
    (hZ : ∀ z ∈ Z, ∃ u, z = zipName path u ∧ u ≠ t) :
    (rotatedFS fs path t none).names.Perm (path :: zipName path t :: Z) := by
  have hpZ : path ∉ Z := by
    intro h
    obtain ⟨u, hu, _⟩ := hZ _ h
    exact zipName_ne_path path u hu.symm
  have haZ : path ++ "." ++ formatInt t ∉ Z := by
    intro h
    obtain ⟨u, hu, _⟩ := hZ _ h
    exact archiveName_ne_zipName path t u hu
  have hzZ : zipName path t ∉ Z := by
    intro h
    obtain ⟨u, hu, hne⟩ := hZ _ h
    exact hne (zipName_injective path hu).symm
  have hap : path ++ "." ++ formatInt t ≠ path := archiveName_ne_path path t
  have hzp : zipName path t ≠ path := zipName_ne_path path t
  have haz : path ++ "." ++ formatInt t ≠ zipName path t := archiveName_ne_zipName path t t
  set arch := path ++ "." ++ formatInt t with harch
  -- rename
  have haN : arch ∉ fs.names := by
    intro h
    rcases List.mem_cons.1 (hperm.mem_iff.1 h) with h | h
    · exact hap h
    · exact haZ h
  have h1 : (fs.rename path arch).names.Perm (arch :: Z) := by
    rw [names_rename _ _ _ (Ne.symm hap), filter_ne_of_not_mem _ _ haN]
    have := hperm.map (fun x => if x = path then arch else x)
    rw [List.map_cons, map_rekey_of_not_mem _ _ _ hpZ] at this
    simpa using this
  -- open with O_CREATE
  have hp1 : path ∉ (fs.rename path arch).names := by
    intro h
    rcases List.mem_cons.1 (h1.mem_iff.1 h) with h | h
    · exact hap h.symm
    · exact hpZ h
  have h2 : ((fs.rename path arch).create path).names = path :: (fs.rename path arch).names :=
    names_create _ _ hp1
  -- archive
  have hz2 : zipName path t ∉ path :: (fs.rename path arch).names := by
    intro h
    rcases List.mem_cons.1 h with h | h
    · exact hzp h
    · rcases List.mem_cons.1 (h1.mem_iff.1 h) with h | h
      · exact haz h.symm
      · exact hzZ h
  have h3 : (rotatedFS fs path t none).names =
      zipName path t :: path :: (fs.rename path arch).names.filter (fun x => x ≠ arch) := by
    simp only [rotatedFS, archive, ← harch]
    simp only [reduceCtorEq, if_false]
    rw [names_remove, zipName_eq, names_truncate, h2, filter_ne_of_not_mem _ _ hz2]
    simp [List.filter_cons, Ne.symm haz, Ne.symm hap]
  rw [h3]
  have h4 : ((fs.rename path arch).names.filter (fun x => x ≠ arch)).Perm Z := by
    have := h1.filter (fun x => x ≠ arch)
    rw [List.filter_cons] at this
    simp only [ne_eq, not_true_eq_false, decide_False, Bool.false_eq_true, if_false] at this
    rw [filter_ne_of_not_mem _ _ haZ] at this
    exact this
  exact ((h4.cons path).cons (zipName path t)).trans (List.Perm.swap _ _ _)

end logging

/-! ## Scenario A: equal payloads into a fresh directory -/

namespace logging

theorem archives_succ (env : Env) (path : String) (k : Nat) :
    archives env path (k + 1) = archives env path k ++ [zipName path (env.now k)] := by
  simp [archives, List.range_succ]

/-- One write of `s` bytes in a steady state: it stays in the segment when the
segment has room for it, and otherwise rotates once and opens the next
segment. -/
theorem Steady.step (env : Env) (hok : env.allSucceed) (hinj : Function.Injective env.now)
    (path : String) (m s c k : Nat) (w : World) (p : List UInt8) (hlen : p.length = s)
    (hsm : s ≤ m) (hinv : Steady env path m s c k w) :
    ∃ w1, RotateFileWriter.Write env 2 w p = Run.done w1 (Go.ret ((s : Int), none)) ∧
      ((s * (c + 1) ≤ m ∧ Steady env path m s (c + 1) k w1) ∨
       (m < s * (c + 1) ∧ Steady env path m s 1 (k + 1) w1)) := by
  obtain ⟨hcount, hmax, honce, hsync, hfile, hcalls, hrot, hnames⟩ := hinv
  have hlenp : len p = (s : Int) := by simp [len, hlen]
  by_cases hfit : s * (c + 1) ≤ m
  · have hle : w.cur.count + len p ≤ w.cur.max := by
      rw [hcount, hmax, hlenp]
      have : ((s * (c + 1) : Nat) : Int) ≤ (m : Int) := by exact_mod_cast hfit
      push_cast at this
      linarith
    have hw : RotateFileWriter.Write env 2 w p = _ := Write_under env 1 w p path hfile hle
    rw [hlenp] at hw
    refine ⟨_, hw, Or.inl ⟨hfit, ?_⟩⟩
    · refine ⟨?_, hmax, honce, hsync, hfile, hcalls, hrot, ?_⟩
      · show w.cur.count + (s : Int) = _
        rw [hcount]
        push_cast
        ring
      · show (w.fs.append path p.length).names.Perm _
        rw [names_append]
        exact hnames
  · have hgt : w.cur.max < w.cur.count + len p := by
      rw [hcount, hmax, hlenp]
      have : ((m : Nat) : Int) < ((s * (c + 1) : Nat) : Int) := by
        exact_mod_cast Nat.lt_of_not_le hfit
      push_cast at this
      linarith
    obtain ⟨hc, hr, ho, ha⟩ := hok w.calls
    have hle2 : (w.rotated env path).cur.count + len p ≤ (w.rotated env path).cur.max := by
      rw [rotated_cur, hmax, hlenp]
      simpa using hsm
    have hw : RotateFileWriter.Write env 2 w p = _ :=
      (Write_over env 1 w p path honce hfile hgt hc hr ho (fun _ => ha)).trans
        (Write_under env 0 (w.rotated env path) p path (by rw [rotated_cur]) hle2)
    rw [hlenp] at hw
    refine ⟨_, hw, Or.inr ⟨Nat.lt_of_not_le hfit, ?_⟩⟩
    · refine ⟨?_, ?_, rfl, ?_, rfl, ?_, ?_, ?_⟩
      · show (0 : Int) + (s : Int) = _
        simp
      · show w.cur.max = _
        exact hmax
      · show w.cur.sync = true
        exact hsync
      · show w.calls + 1 = k + 1
        rw [hcalls]
      · show w.rotations + 1 = k + 1
        rw [hrot]
      · show ((rotatedFS w.fs path (env.now w.calls) (env.archive w.calls)).append path
            p.length).names.Perm _
        rw [names_append, ha, hcalls, archives_succ]
        have hZ : ∀ z ∈ archives env path k, ∃ u, z = zipName path u ∧ u ≠ env.now k := by
          intro z hz
          obtain ⟨i, hi, rfl⟩ := List.mem_map.1 hz
          refine ⟨env.now i, rfl, fun h => ?_⟩
          have := hinj h
          have hik := List.mem_range.1 hi
          omega
        refine (names_rotatedFS w.fs path (env.now k) _ hnames hZ).trans ?_
        exact (List.perm_append_singleton _ _).symm.cons path

/-- A run of `n` writes of `s` bytes from a steady state. The count of
payloads taken so far, `k * q + c` with `q = m / s`, grows by `n`. -/
theorem Steady.run (env : Env) (hok : env.allSucceed) (hinj : Function.Injective env.now)
    (path : String) (m s : Nat) (p : List UInt8) (hlen : p.length = s) (hs : 0 < s)
    (hsm : s ≤ m) :
    ∀ (n c k : Nat) (w : World), Steady env path m s c k w → c ≤ m / s →
      ∃ w1 c1 k1,
        writeAll env 2 w (List.replicate n p) =
          Run.done w1 (List.replicate n (Go.ret ((s : Int), none))) ∧
        Steady env path m s c1 k1 w1 ∧ c1 ≤ m / s ∧
        k1 * (m / s) + c1 = k * (m / s) + c + n ∧ (1 ≤ c ∨ 1 ≤ n → 1 ≤ c1)
  | 0, c, k, w, hinv, hc => ⟨w, c, k, rfl, hinv, hc, rfl, fun h => by omega⟩
  | n + 1, c, k, w, hinv, hc => by
    have hq : 1 ≤ m / s := (Nat.one_le_div_iff hs).2 hsm
    obtain ⟨w1, hw1, hcase⟩ := Steady.step env hok hinj path m s c k w p hlen hsm hinv
    have hnext : ∃ c' k', Steady env path m s c' k' w1 ∧ c' ≤ m / s ∧ 1 ≤ c' ∧
        k' * (m / s) + c' = k * (m / s) + c + 1 := by
      rcases hcase with ⟨hfit, hst⟩ | ⟨hover, hst⟩
      · refine ⟨c + 1, k, hst, ?_, by omega, by omega⟩
        rw [Nat.le_div_iff_mul_le hs, Nat.mul_comm]
        exact hfit
      · refine ⟨1, k + 1, hst, hq, le_refl _, ?_⟩
        have hcq : c = m / s := by
          by_contra hne
          have hlt : c + 1 ≤ m / s := by omega
          rw [Nat.le_div_iff_mul_le hs, Nat.mul_comm] at hlt
          omega
        rw [Nat.add_mul, hcq]
        omega
    obtain ⟨c', k', hst, hcq, hc1, hsum⟩ := hnext
    obtain ⟨w2, c2, k2, hw2, hst2, hc2, hsum2, hpos2⟩ :=
      Steady.run env hok hinj path m s p hlen hs hsm n c' k' w1 hst hcq
    refine ⟨w2, c2, k2, ?_, hst2, hc2, by omega, fun _ => hpos2 (Or.inl hc1)⟩
    simp only [List.replicate_succ, writeAll, hw1, hw2]

end logging

namespace logging

theorem NewRotateFileWriter_fresh (cfg : RotateFileWriterConfig) (cenv : ConstructEnv)
    (hm : cfg.MaxSizeBytes ≠ 0) (hstat : cenv.stat = none) (hopen : cenv.openFile = none) :
    NewRotateFileWriter cfg cenv [] =
      ([(resolvedPath cfg cenv, 0)],
        some { path := resolvedPath cfg cenv, retentionDuration := cfg.RetentionDuration,
               retentionFiles := cfg.RetentionFiles,
               container := { file := some { name := resolvedPath cfg cenv },
                              max := cfg.MaxSizeBytes, count := 0, sync := cfg.sync } },
        none) := by
  simp only [NewRotateFileWriter, Stat, hstat, hopen, resolvedPath]
  by_cases hp : cfg.Path = "" <;>
    simp [hp, hm, IsNotExist, FS.size, FS.create, FS.names]

/-- C1: a writer is constructed over an empty directory with synchronous
archiving and threshold `m`, every system call succeeds, and the clock never
repeats a reading. After `n ≥ 1` writes of `s` bytes each, `0 < s ≤ m`, every
write has returned `(s, nil)`, `⌈n / ⌊m/s⌋⌉ - 1` rotations have happened, and
the directory holds `⌈n / ⌊m/s⌋⌉` entries: the live file and one `.zip`
archive per rotation. For `m = 1024`, `s = 512`, `n = 100` that is 50
entries. -/
theorem scenario_A (cfg : RotateFileWriterConfig) (cenv : ConstructEnv) (env : Env)
    (m s n : Nat) (p : List UInt8) (hsync : cfg.sync = true)
    (hm : cfg.MaxSizeBytes = (m : Int)) (hstat : cenv.stat = none)
    (hopen : cenv.openFile = none) (hok : env.allSucceed)
    (hinj : Function.Injective env.now) (hlen : p.length = s) (hs : 0 < s) (hsm : s ≤ m)
    (hn : 1 ≤ n) :
    ∃ wr w1,
      NewRotateFileWriter cfg cenv [] = ([(resolvedPath cfg cenv, 0)], some wr, none) ∧
      writeAll env 2 (World.start [(resolvedPath cfg cenv, 0)] wr) (List.replicate n p) =
        Run.done w1 (List.replicate n (Go.ret ((s : Int), none))) ∧
      w1.rotations = (n + m / s - 1) / (m / s) - 1 ∧
      w1.fs.names.length = (n + m / s - 1) / (m / s) ∧
      w1.fs.names.Perm
        (resolvedPath cfg cenv :: archives env (resolvedPath cfg cenv) w1.rotations) ∧
      (m = 1024 → s = 512 → n = 100 → w1.fs.names.length = 50) := by
  have hm0 : cfg.MaxSizeBytes ≠ 0 := by
    rw [hm]
    have : 0 < m := by omega
    exact_mod_cast this.ne'
  have hnew := NewRotateFileWriter_fresh cfg cenv hm0 hstat hopen
  have hq : 1 ≤ m / s := (Nat.one_le_div_iff hs).2 hsm
  have hstart : Steady env (resolvedPath cfg cenv) m s 0 0
      (World.start [(resolvedPath cfg cenv, 0)]
        { path := resolvedPath cfg cenv, retentionDuration := cfg.RetentionDuration,
          retentionFiles := cfg.RetentionFiles,
          container := { file := some { name := resolvedPath cfg cenv },
                         max := cfg.MaxSizeBytes, count := 0, sync := cfg.sync } }) := by
    refine ⟨?_, hm, rfl, hsync, rfl, rfl, rfl, ?_⟩
    · show (0 : Int) = _
      simp
    · exact List.Perm.refl _
  obtain ⟨w1, c1, k1, hrun, hst, hc1, hsum, hpos⟩ :=
    Steady.run env hok hinj (resolvedPath cfg cenv) m s p hlen hs hsm n 0 0 _ hstart
      (Nat.zero_le _)
  have hc1pos : 1 ≤ c1 := hpos (Or.inr hn)
  obtain ⟨_, _, _, _, _, _, hrot, hnames⟩ := hst
  have hdiv : (n + m / s - 1) / (m / s) = k1 + 1 := by
    apply Nat.div_eq_of_lt_le
    · rw [Nat.add_mul] ; omega
    · rw [Nat.add_mul, Nat.add_mul] ; omega
  have hlenN : w1.fs.names.length = k1 + 1 := by
    rw [hnames.length_eq]
    simp [archives]
  refine ⟨_, w1, hnew, hrun, ?_, ?_, ?_, ?_⟩
  · rw [hdiv, hrot]
    rfl
  · rw [hdiv, hlenN]
  · rw [hrot]
    exact hnames
  · intro h1 h2 h3
    subst h1 h2 h3
    rw [hlenN]
    norm_num at hsum
    omega

/-- Instance of `scenario_A`: the configuration of the test, 100 writes of 512
bytes against a threshold of 1024. -/
theorem scenario_A_witness :
    (Env.steady 1700000000000000000).allSucceed ∧
    Function.Injective (Env.steady 1700000000000000000).now ∧
    ∃ wr w1,
      NewRotateFileWriter
        { Path := "sensu.log", MaxSizeBytes := 1024, RetentionDuration := 0,
          RetentionFiles := 10, sync := true }
        { arg0 := "sensu-agent", stat := none, openFile := none } [] =
          ([("sensu.log", 0)], some wr, none) ∧
      writeAll (Env.steady 1700000000000000000) 2 (World.start [("sensu.log", 0)] wr)
          (List.replicate 100 (List.replicate 512 33)) =
        Run.done w1 (List.replicate 100 (Go.ret (512, none))) ∧
      w1.rotations = 49 ∧ w1.fs.names.length = 50 := by
  refine ⟨fun _ => ⟨rfl, rfl, rfl, rfl⟩, fun a b h => ?_, ?_⟩
  · simp only [Env.steady] at h
    omega
  · obtain ⟨wr, w1, h1, h2, h3, h4, _, _⟩ :=
      scenario_A
        { Path := "sensu.log", MaxSizeBytes := 1024, RetentionDuration := 0,
          RetentionFiles := 10, sync := true }
        { arg0 := "sensu-agent", stat := none, openFile := none }
        (Env.steady 1700000000000000000) 1024 512 100 (List.replicate 512 33) rfl rfl rfl rfl
        (fun _ => ⟨rfl, rfl, rfl, rfl⟩)
        (fun a b h => by simp only [Env.steady] at h; omega)
        (List.length_replicate _ _) (by decide) (by decide) (by decide)
    exact ⟨wr, w1, h1, h2, h3, h4⟩

end logging
